import Mathlib

/-!
Verification of the pgcli dump-wrapper connection-argument parser/rewriter
(`pgcli/dumpall.py`) and the SSH tunnel manager (`pgcli/ssh_tunnel.py`).

The Python code is shallowly embedded: token sequences are `List String`,
Python `int(...)` on strings is `pyInt`, Python `str(...)` on integers is
`pyStr`, Python `str.split()` is `pySplit`, Python `"pat" in s` is
`containsSubstr`, and Python `s.startswith(p)` is `strStarts`.
-/

set_option maxHeartbeats 1000000

namespace PgDump

/-! ## Definitions -/

/-! ### Character and list-of-char utilities -/
/-- The ASCII whitespace characters recognized by Python's `str.split()`
and `int()` stripping (restricted to the ASCII range). -/
def wsChar (c : Char) : Bool :=
  c = ' ' || c = '\t' || c = '\n' || c = '\r' || c = '\x0b' || c = '\x0c'

/-- Boolean prefix test on char lists. -/
def lpre : List Char → List Char → Bool
  | [], _ => true
  | _ :: _, [] => false
  | a :: as, b :: bs => a = b && lpre as bs

/-- Python's substring containment `pat in s`, on char lists. -/
def isSubstr (pat : List Char) : List Char → Bool
  | [] => pat.isEmpty
  | c :: rest => lpre pat (c :: rest) || isSubstr pat rest

/-- Python `s.startswith(p)`. -/
def strStarts (p s : String) : Bool := lpre p.data s.data

/-- Python `pat in s`. -/
def containsSubstr (s pat : String) : Bool := isSubstr pat.data s.data

/-- Drop the first `n` characters of a string (used to model
`s.split("=", 1)[1]` where `s` is known to start with an `n`-character
prefix whose only `=` is its last character). -/
def dropPfx (s : String) (n : Nat) : String := ⟨s.data.drop n⟩

/-- Helper for `splitWs`: `acc` holds the reversed partial run being
accumulated. -/
def splitWsAux : List Char → List Char → List (List Char)
  | [], acc => if acc.isEmpty then [] else [acc.reverse]
  | c :: rest, acc =>
    if wsChar c then
      (if acc.isEmpty then [] else [acc.reverse]) ++ splitWsAux rest []
    else splitWsAux rest (c :: acc)

/-- Python `s.split()` on char lists: maximal non-whitespace runs. -/
def splitWs (l : List Char) : List (List Char) := splitWsAux l []

/-- Python `s.split()`. -/
def pySplit (s : String) : List String := (splitWs s.data).map String.mk

/-- Join with single spaces: Python `" ".join(parts)`. -/
def joinChars : List (List Char) → List Char
  | [] => []
  | [p] => p
  | p :: q :: rest => p ++ ' ' :: joinChars (q :: rest)

/-- Python `" ".join(parts)`. -/
def joinSpace (parts : List String) : String := ⟨joinChars (parts.map String.data)⟩

/-! ### Python `int(...)` on strings -/
/-- Tail of a Python digit run: digits with single `_` separators. -/
def digitsTailOk : List Char → Bool
  | [] => true
  | c :: rest =>
    if c = '_' then
      match rest with
      | d :: rest2 => d.isDigit && digitsTailOk rest2
      | [] => false
    else c.isDigit && digitsTailOk rest

/-- Underscore-separated digit runs: Python 3 integer literal bodies
(`digit (underscore? digit)*`). -/
def digitsOk : List Char → Bool
  | [] => false
  | c :: rest => c.isDigit && digitsTailOk rest

/-- Numeric value of a digit/underscore run (underscores skipped). -/
def digitsVal (l : List Char) : Nat :=
  l.foldl (fun acc c => if c = '_' then acc else acc * 10 + (c.toNat - 48)) 0

/-- The body of Python `int(s)` after whitespace stripping: optional sign
followed by an underscore-grouped digit run. -/
def pyIntCore (l : List Char) : Option Int :=
  match l with
  | [] => none
  | c :: rest =>
    if c = '-' then
      if digitsOk rest then some (-(digitsVal rest : Int)) else none
    else if c = '+' then
      if digitsOk rest then some (digitsVal rest : Int) else none
    else if digitsOk (c :: rest) then some (digitsVal (c :: rest) : Int)
    else none

/-- Python `int(s)` for a string `s`: strips surrounding whitespace, then
parses an optionally signed decimal integer (with underscore digit
grouping); `none` models the `ValueError` raise. -/
def pyInt (s : String) : Option Int :=
  pyIntCore (((s.data.dropWhile wsChar).reverse.dropWhile wsChar).reverse)

/-- The `ValueError` message raised by Python `int(s)`, which names the
offending string. -/
def intErrMsg (s : String) : String :=
  "invalid literal for int() with base 10: " ++ s

/-! ### Python `str(...)` on integers -/
/-- Fuel-driven digit extraction (the fuel is an upper bound on the
number, so it never runs out in `natToRevDigits`). -/
def natToRevDigitsAux : Nat → Nat → List Char
  | _, 0 => []
  | 0, _ + 1 => []
  | fuel + 1, n + 1 =>
    Char.ofNat (48 + (n + 1) % 10) :: natToRevDigitsAux fuel ((n + 1) / 10)

/-- Decimal digits of `n`, least significant first (empty for 0). -/
def natToRevDigits (n : Nat) : List Char := natToRevDigitsAux n n

/-- Decimal rendering of a natural number. -/
def natToStr (n : Nat) : String :=
  if n = 0 then "0" else ⟨(natToRevDigits n).reverse⟩

/-- Python `str(i)` for an integer `i`. -/
def pyStr : Int → String
  | .ofNat n => natToStr n
  | .negSucc m => "-" ++ natToStr (m + 1)

/-! ### `parse_connection_args` (pgcli/dumpall.py)

The running state of the scan: `host`/`port` start from the environment
defaults (`PGHOST`/`PGPORT`), `hasHost`/`hasPort` start `false`. -/
structure ParseState where
  host : String
  port : Int
  hasHost : Bool
  hasPort : Bool
deriving DecidableEq, Repr

/-- The inner loop of the `-d`/`--dbname` connection-string handling:
`for part in dbname.split(): if part.startswith("host="): ... elif
part.startswith("port="): ...`.  A malformed `port=` value raises
`ValueError` from `int(...)`. -/
def scanConnStr : List String → ParseState → Except String ParseState
  | [], st => .ok st
  | part :: rest, st =>
    if strStarts "host=" part then
      scanConnStr rest { st with host := dropPfx part 5, hasHost := true }
    else if strStarts "port=" part then
      match pyInt (dropPfx part 5) with
      | some n => scanConnStr rest { st with port := n, hasPort := true }
      | none => .error (intErrMsg (dropPfx part 5))
    else scanConnStr rest st

/-- The `if "host=" in dbname:` guard plus the field scan applied to a
dbname value. -/
def processDbname (dbname : String) (st : ParseState) : Except String ParseState :=
  if containsSubstr dbname "host=" then scanConnStr (pySplit dbname) st
  else .ok st

/-- The function `parse_connection_args` from pgcli/dumpall.py.  Returns the final
state together with `remaining_args`; `.error` models the uncaught
`ValueError` raised by `int(...)` on a malformed port value.  A trailing
`-h`/`-p`/`-d`-style flag with no following token falls through to the
pass-through branch, exactly as in the Python `while` loop. -/
def parse_connection_args : List String → ParseState → Except String (ParseState × List String)
  | [], st => .ok (st, [])
  | arg :: rest, st =>
    if arg = "-h" ∨ arg = "--host" then
      match rest with
      | v :: rest2 =>
        match parse_connection_args rest2 { st with host := v, hasHost := true } with
        | .ok (st2, rem) => .ok (st2, arg :: v :: rem)
        | .error e => .error e
      | [] => .ok (st, [arg])
    else if strStarts "--host=" arg then
      match parse_connection_args rest { st with host := dropPfx arg 7, hasHost := true } with
      | .ok (st2, rem) => .ok (st2, arg :: rem)
      | .error e => .error e
    else if arg = "-p" ∨ arg = "--port" then
      match rest with
      | v :: rest2 =>
        match pyInt v with
        | some n =>
          match parse_connection_args rest2 { st with port := n, hasPort := true } with
          | .ok (st2, rem) => .ok (st2, arg :: v :: rem)
          | .error e => .error e
        | none => .error (intErrMsg v)
      | [] => .ok (st, [arg])
    else if strStarts "--port=" arg then
      match pyInt (dropPfx arg 7) with
      | some n =>
        match parse_connection_args rest { st with port := n, hasPort := true } with
        | .ok (st2, rem) => .ok (st2, arg :: rem)
        | .error e => .error e
      | none => .error (intErrMsg (dropPfx arg 7))
    else if arg = "-d" ∨ arg = "--dbname" then
      match rest with
      | v :: rest2 =>
        match processDbname v st with
        | .ok st1 =>
          match parse_connection_args rest2 st1 with
          | .ok (st2, rem) => .ok (st2, arg :: v :: rem)
          | .error e => .error e
        | .error e => .error e
      | [] => .ok (st, [arg])
    else if strStarts "--dbname=" arg then
      match processDbname (dropPfx arg 9) st with
      | .ok st1 =>
        match parse_connection_args rest st1 with
        | .ok (st2, rem) => .ok (st2, arg :: rem)
        | .error e => .error e
      | .error e => .error e
    else
      match parse_connection_args rest st with
      | .ok (st2, rem) => .ok (st2, arg :: rem)
      | .error e => .error e

/-! ### `build_tunneled_args` (pgcli/dumpall.py) -/
/-- One field of a dbname connection string under rewriting: `host=` and
`port=` fields get the tunnel endpoint, everything else passes through. -/
def replField (h : String) (p : Int) (part : String) : String :=
  if strStarts "host=" part then "host=" ++ h
  else if strStarts "port=" part then "port=" ++ pyStr p
  else part

/-- The dbname connection-string rewriting: split on whitespace, replace
`host=`/`port=` fields, re-join with single spaces. -/
def rewriteDbname (v : String) (h : String) (p : Int) : String :=
  joinSpace ((pySplit v).map (replField h p))

/-- The main `while` loop of `build_tunneled_args`: host flags are
re-emitted as `-h tunnel_host`, port flags as `-p str(tunnel_port)`,
dbname values containing `host=` are rewritten; the `-h`/`-p`/`-d`-style
branches skip the following value token unconditionally (`i += 2`),
except that `-d`/`--dbname` checks `i + 1 < len` first. -/
def buildCore : List String → String → Int → List String
  | [], _, _ => []
  | arg :: rest, th, tp =>
    if arg = "-h" ∨ arg = "--host" then
      match rest with
      | _ :: rest2 => "-h" :: th :: buildCore rest2 th tp
      | [] => ["-h", th]
    else if strStarts "--host=" arg then
      ("--host=" ++ th) :: buildCore rest th tp
    else if arg = "-p" ∨ arg = "--port" then
      match rest with
      | _ :: rest2 => "-p" :: pyStr tp :: buildCore rest2 th tp
      | [] => ["-p", pyStr tp]
    else if strStarts "--port=" arg then
      ("--port=" ++ pyStr tp) :: buildCore rest th tp
    else if arg = "-d" ∨ arg = "--dbname" then
      match rest with
      | v :: rest2 =>
        if containsSubstr v "host=" then
          "-d" :: rewriteDbname v th tp :: buildCore rest2 th tp
        else
          "-d" :: v :: buildCore rest2 th tp
      | [] => arg :: buildCore [] th tp
    else if strStarts "--dbname=" arg then
      (if containsSubstr (dropPfx arg 9) "host=" then
        ("--dbname=" ++ rewriteDbname (dropPfx arg 9) th tp)
      else arg) :: buildCore rest th tp
    else arg :: buildCore rest th tp

/-- The function `build_tunneled_args` from pgcli/dumpall.py: the rewriting walk
followed by appending `-h`/`-p` pairs for values that were absent from
the input (`original_host` and `original_port` are accepted but unused,
exactly as in the source). -/
def build_tunneled_args (original_args : List String) (tunnel_host : String)
    (tunnel_port : Int) (original_host : String) (original_port : Int)
    (has_host has_port : Bool) : List String :=
  buildCore original_args tunnel_host tunnel_port
    ++ (if has_host then [] else ["-h", tunnel_host])
    ++ (if has_port then [] else ["-p", pyStr tunnel_port])

/-! ### Regular expressions (external `re` library, Brzozowski derivatives)

`re.fullmatch(pattern, s)` succeeds exactly when the whole string `s` is
in the pattern's language, so the external matcher is embedded as a
whole-string language membership test.  Config patterns are represented
as already-parsed ASTs (pattern-syntax parsing belongs to the external
`re` library): an escaped `\.` is `Regex.chr '.'`, a bare `.` is
`Regex.dot`, `x*` is `Regex.star x`. -/
inductive Regex where
  | fail
  | eps
  | chr (c : Char)
  | dot
  | seq (a b : Regex)
  | star (a : Regex)
  | alt (a b : Regex)
deriving DecidableEq, Repr

def Regex.nullable : Regex → Bool
  | .fail => false
  | .eps => true
  | .chr _ => false
  | .dot => false
  | .seq a b => a.nullable && b.nullable
  | .star _ => true
  | .alt a b => a.nullable || b.nullable

def Regex.deriv : Regex → Char → Regex
  | .fail, _ => .fail
  | .eps, _ => .fail
  | .chr c, x => if x = c then .eps else .fail
  | .dot, _ => .eps
  | .seq a b, x =>
    if a.nullable then .alt (.seq (a.deriv x) b) (b.deriv x) else .seq (a.deriv x) b
  | .star a, x => .seq (a.deriv x) (.star a)
  | .alt a b, x => .alt (a.deriv x) (b.deriv x)

/-- Matching `re.fullmatch pattern s` as whole-string language membership. -/
def rmatch (r : Regex) (s : String) : Bool :=
  (s.data.foldl Regex.deriv r).nullable

/-- A pattern that is a literal string (every metacharacter escaped),
such as `db\.prod\.com`. -/
def rlit (s : String) : Regex :=
  s.data.foldr (fun c acc => .seq (.chr c) acc) .eps

/-! ### `SSHTunnelManager.find_tunnel_url` (pgcli/ssh_tunnel.py) -/
/-- The rule configuration of an `SSHTunnelManager`: the explicit
`ssh_tunnel_url`, the ordered host-pattern rules `ssh_tunnel_config` and
the ordered DSN-alias-pattern rules `dsn_ssh_tunnel_config` (Python dicts
preserve insertion order, so each is an ordered association list). -/
structure TunnelManager where
  ssh_tunnel_url : Option String
  ssh_tunnel_config : List (Regex × String)
  dsn_ssh_tunnel_config : List (Regex × String)
deriving Repr

/-- Python truthiness of an optional string: `None` and `""` are falsy. -/
def strTruthy : Option String → Bool
  | none => false
  | some s => s ≠ ""

/-- The `for regex, url in config.items(): if re.fullmatch(regex, s):
return url` loop. -/
def findFirstFullMatch : List (Regex × String) → String → Option String
  | [], _ => none
  | (pat, url) :: rest, s =>
    if rmatch pat s then some url else findFirstFullMatch rest s

/-- The method `SSHTunnelManager.find_tunnel_url`: explicit URL first (if truthy),
then the DSN-alias rules (if a truthy alias and a non-empty rule dict),
then the host rules (if a truthy host and a non-empty rule dict). -/
def find_tunnel_url (m : TunnelManager) (host : Option String)
    (dsn_alias : Option String) : Option String :=
  if strTruthy m.ssh_tunnel_url then m.ssh_tunnel_url
  else
    match
      (if strTruthy dsn_alias ∧ m.dsn_ssh_tunnel_config ≠ [] then
        findFirstFullMatch m.dsn_ssh_tunnel_config (dsn_alias.getD "")
      else none) with
    | some url => some url
    | none =>
      if strTruthy host ∧ m.ssh_tunnel_config ≠ [] then
        findFirstFullMatch m.ssh_tunnel_config (host.getD "")
      else none

/-! ### Tunnel lifecycle and orchestration (`start_tunnel`, `stop_tunnel`,
`cli`)

The external `sshtunnel.SSHTunnelForwarder` transport is abstracted by an
environment record describing how its calls would behave for this
invocation. -/
/-- The live forwarding object held in `self.tunnel` (`is_active` is the
underlying forwarder's state). -/
structure TunnelHandle where
  is_active : Bool
deriving DecidableEq, Repr

/-- The mutable state of an `SSHTunnelManager` relevant to teardown. -/
structure ManagerState where
  tunnel : Option TunnelHandle
deriving DecidableEq, Repr

/-- The method `SSHTunnelManager.stop_tunnel`: `if self.tunnel and
self.tunnel.is_active: self.tunnel.stop(); self.tunnel = None`.  Returns
the new state together with the number of `tunnel.stop()` calls issued to
the forwarding bind. -/
def stop_tunnel : ManagerState → ManagerState × Nat
  | ⟨some t⟩ => if t.is_active then (⟨none⟩, 1) else (⟨some t⟩, 0)
  | ⟨none⟩ => (⟨none⟩, 0)

/-- Behavior of the external pieces of one `start_tunnel` call:
whether the `sshtunnel` package is importable, whether
`SSHTunnelForwarder(...).start()` returns without raising, what
`tunnel.is_active` reports afterwards, and the ephemeral local bind
port. -/
structure TunnelEnv where
  sshSupport : Bool
  startOk : Bool
  bindActive : Bool
  localPort : Int
deriving Repr

/-- Result of `SSHTunnelManager.start_tunnel`: either the `(host, port)`
pair to connect to, or a fatal `sys.exit(code)`. -/
inductive StartResult where
  | opened (h : String) (p : Int)
  | fatal (code : Int)
deriving DecidableEq, Repr

/-- The method `SSHTunnelManager.start_tunnel`: no matching URL returns the endpoint
unchanged; with a URL, a missing `sshtunnel` package, a raise from
`start()`, or an inactive bind each ends in `sys.exit(1)`; otherwise the
local loopback endpoint is returned. -/
def start_tunnel (m : TunnelManager) (env : TunnelEnv) (host : String)
    (port : Int) (dsn_alias : Option String) : StartResult :=
  match find_tunnel_url m (some host) dsn_alias with
  | none => .opened host port
  | some _ =>
    if !env.sshSupport then .fatal 1
    else if !env.startOk then .fatal 1
    else if !env.bindActive then .fatal 1
    else .opened "127.0.0.1" env.localPort

/-- How `subprocess.run([pg_dumpall_path] + final_args)` ends: normal
completion with the child's exit code, `FileNotFoundError` (missing
executable), or `KeyboardInterrupt`. -/
inductive RunOutcome where
  | completed (code : Int)
  | notFound
  | interrupted
deriving DecidableEq, Repr

/-- Observable outcome of one `cli` invocation. -/
structure CliOutcome where
  exitCode : Int
  ranWrapped : Bool
  tunnelAttempted : Bool
  stopCalled : Bool
deriving DecidableEq, Repr

/-- The `cli` orchestration from pgcli/dumpall.py: parse the tokens
(an uncaught `ValueError` ends the interpreter with exit code 1 before
any tunnel work), start the tunnel (a `.fatal` result exits before
`pg_dumpall` is ever spawned), choose rewritten or original arguments by
comparing endpoints, run `pg_dumpall`, propagate its exit code (or 1 for
a missing executable, 130 on `KeyboardInterrupt`), with `stop_tunnel`
called in the `finally` block on every run path. -/
def cliModel (m : TunnelManager) (env : TunnelEnv) (run : RunOutcome)
    (args : List String) (dh : String) (dp : Int) (dsn_alias : Option String) :
    CliOutcome :=
  match parse_connection_args args ⟨dh, dp, false, false⟩ with
  | .error _ => ⟨1, false, false, false⟩
  | .ok (st, rem) =>
    let attempted := (find_tunnel_url m (some st.host) dsn_alias).isSome
    match start_tunnel m env st.host st.port dsn_alias with
    | .fatal c => ⟨c, false, attempted, false⟩
    | .opened th tp =>
      let _final_args :=
        if th ≠ st.host ∨ tp ≠ st.port then
          build_tunneled_args rem th tp st.host st.port st.hasHost st.hasPort
        else args
      match run with
      | .completed c => ⟨c, true, attempted, true⟩
      | .notFound => ⟨1, false, attempted, true⟩
      | .interrupted => ⟨130, true, attempted, true⟩

/-! ### Specification-side definitions

These definitions follow the wording of the specification (host/port
*occurrences* scanned left to right, "last occurrence wins") and are
compared against the source-derived functions above. -/
/-- A host or port occurrence, with the value string it carries. -/
inductive Occ where
  | host (v : String)
  | port (v : String)
deriving DecidableEq, Repr

/-- The occurrence carried by one `key=value` field of a connection
string, if any. -/
def partOcc (part : String) : Option Occ :=
  if strStarts "host=" part then some (.host (dropPfx part 5))
  else if strStarts "port=" part then some (.port (dropPfx part 5))
  else none

/-- Occurrences contributed by one dbname connection-string value,
*as the code treats it*: the fields count only when the value contains
the substring `host=`. -/
def dbOccs (v : String) : List Occ :=
  if containsSubstr v "host=" then (pySplit v).filterMap partOcc else []

/-- Occurrences contributed by one dbname connection-string value, as
the specification's words have it: every `host=`/`port=` field counts,
unconditionally. -/
def dbOccsSpec (v : String) : List Occ :=
  (pySplit v).filterMap partOcc

/-- All host/port occurrences of a token sequence in left-to-right scan
order, parameterized by the dbname-field treatment `db`.  An occurrence
is a discrete flag in either spelling together with its value token (a
trailing flag with no value token carries no occurrence), or a field
inside a dbname value. -/
def connOccsWith (db : String → List Occ) : List String → List Occ
  | [] => []
  | a :: rest =>
    if a = "-h" ∨ a = "--host" then
      match rest with
      | v :: rest2 => .host v :: connOccsWith db rest2
      | [] => []
    else if strStarts "--host=" a then .host (dropPfx a 7) :: connOccsWith db rest
    else if a = "-p" ∨ a = "--port" then
      match rest with
      | v :: rest2 => .port v :: connOccsWith db rest2
      | [] => []
    else if strStarts "--port=" a then .port (dropPfx a 7) :: connOccsWith db rest
    else if a = "-d" ∨ a = "--dbname" then
      match rest with
      | v :: rest2 => db v ++ connOccsWith db rest2
      | [] => []
    else if strStarts "--dbname=" a then db (dropPfx a 9) ++ connOccsWith db rest
    else connOccsWith db rest

/-- Occurrences as the code's scan sees them (dbname fields gated on a
`host=` substring). -/
def connOccs : List String → List Occ := connOccsWith dbOccs

/-- Occurrences as the specification's words have them (dbname fields
ungated). -/
def connOccsSpec : List String → List Occ := connOccsWith dbOccsSpec

/-- The host-occurrence values of an occurrence list. -/
def hostVals (l : List Occ) : List String :=
  l.filterMap fun o => match o with | .host v => some v | .port _ => none

/-- The port-occurrence value strings of an occurrence list. -/
def portVals (l : List Occ) : List String :=
  l.filterMap fun o => match o with | .host _ => none | .port v => some v

/-- The last element of a list, or a default: "last occurrence wins". -/
def lastD : List α → α → α
  | [], d => d
  | x :: xs, _ => lastD xs x

/-- Whether the manager currently holds an active tunnel. -/
def managerActive (s : ManagerState) : Bool :=
  match s.tunnel with
  | some t => t.is_active
  | none => false

/-- Tunnel resolution as the amended claim words it: a non-empty explicit
override always wins; otherwise a non-empty alias is matched against the
alias rules in declaration order (first full match wins); otherwise a
non-empty host is matched against the host rules in declaration order;
otherwise no tunnel URL. -/
def c3Expected (m : TunnelManager) (host dsn_alias : Option String) :
    Option String :=
  if strTruthy m.ssh_tunnel_url then m.ssh_tunnel_url
  else
    (match dsn_alias with
      | some a =>
        if a ≠ "" then (m.dsn_ssh_tunnel_config.find? fun (pr : Regex × String) => rmatch pr.1 a).map Prod.snd
        else none
      | none => none).orElse fun _ =>
      match host with
      | some h =>
        if h ≠ "" then (m.ssh_tunnel_config.find? fun (pr : Regex × String) => rmatch pr.1 h).map Prod.snd
        else none
      | none => none

/-- Tunnel resolution as claim C3 words it ("set" and "supplied" read as
plain presence, with no non-emptiness proviso). -/
def c3OrigExpected (m : TunnelManager) (host dsn_alias : Option String) :
    Option String :=
  if m.ssh_tunnel_url.isSome then m.ssh_tunnel_url
  else
    (match dsn_alias with
      | some a => (m.dsn_ssh_tunnel_config.find? fun (pr : Regex × String) => rmatch pr.1 a).map Prod.snd
      | none => none).orElse fun _ =>
      match host with
      | some h => (m.ssh_tunnel_config.find? fun (pr : Regex × String) => rmatch pr.1 h).map Prod.snd
      | none => none

/-- Claim C3 exactly as stated, as a proposition about the code. -/
def C3OrigProp : Prop :=
  ∀ (m : TunnelManager) (host dsn_alias : Option String),
    find_tunnel_url m host dsn_alias = c3OrigExpected m host dsn_alias

/-! ### Claim C4: full-match semantics -/
/-- The single-host-rule manager of claim C4: pattern `db\.prod\.com`
(all dots escaped, so a literal pattern) mapping to a jump-host URL. -/
def c4Manager : TunnelManager :=
  ⟨none, [(rlit "db.prod.com", "ssh://jumphost")], []⟩

/-! ### Characterization of the parser by occurrence lists -/
/-- A string accepted by Python `int(...)`. -/
def validInt (s : String) : Bool := (pyInt s).isSome

/-- The integer values of the valid port occurrences, in scan order. -/
def portInts (l : List Occ) : List Int := (portVals l).filterMap pyInt

/-- The effective state as the (amended) specification words it: host and
port each take the value of the last corresponding occurrence scanned
left to right (falling back to the start state), and the explicit flags
record whether any occurrence of that kind was seen. -/
def specState (args : List String) (st : ParseState) : ParseState :=
  ⟨lastD (hostVals (connOccs args)) st.host,
    lastD (portInts (connOccs args)) st.port,
    st.hasHost || !(hostVals (connOccs args)).isEmpty,
    st.hasPort || !(portVals (connOccs args)).isEmpty⟩

/-- Claim C1 exactly as stated: occurrences include every `host=`/`port=`
field of a dbname connection-string value, with no gating on a `host=`
substring. -/
def C1OrigProp : Prop :=
  ∀ (args : List String) (dh : String) (dp : Int) (st : ParseState) (rem : List String),
    parse_connection_args args ⟨dh, dp, false, false⟩ = .ok (st, rem) →
    st.host = lastD (hostVals (connOccsSpec args)) dh ∧
    st.hasHost = !(hostVals (connOccsSpec args)).isEmpty ∧
    st.port = lastD ((portVals (connOccsSpec args)).filterMap pyInt) dp ∧
    st.hasPort = !(portVals (connOccsSpec args)).isEmpty

/-! ### Claim C2: port-value validation -/
/-- Claim C2 exactly as stated: parsing succeeds (with respect to ports)
exactly when every port value scanned is a valid *non-negative* integer. -/
def validNonNegInt (s : String) : Bool :=
  match pyInt s with
  | some n => decide (0 ≤ n)
  | none => false

def C2OrigProp : Prop :=
  ∀ (args : List String) (st : ParseState),
    (∃ r, parse_connection_args args st = .ok r) ↔
      (portVals (connOccs args)).all validNonNegInt = true

/-! ### Whitespace-splitting infrastructure (claims C5, C6, C7) -/
/-- No Python-whitespace character occurs in the char list. -/
def noWs (l : List Char) : Bool := l.all fun c => !wsChar c

/-- No Python-whitespace character occurs in the string. -/
def noWsStr (s : String) : Bool := noWs s.data

/-- Separator-preserving rewriting, as claim C5 words it: every
`key=value` field is mapped in place through `replField` while each
whitespace character of the original value is kept verbatim.  `acc`
accumulates the reversed current field. -/
def sepRewriteAux (h : String) (p : Int) : List Char → List Char → List Char
  | [], acc => if acc.isEmpty then [] else (replField h p ⟨acc.reverse⟩).data
  | c :: rest, acc =>
    if wsChar c then
      (if acc.isEmpty then [] else (replField h p ⟨acc.reverse⟩).data) ++
        c :: sepRewriteAux h p rest []
    else sepRewriteAux h p rest (c :: acc)

/-- Claim C5's rewriting: fields replaced in place, separator style
untouched. -/
def sepRewrite (h : String) (p : Int) (v : String) : String :=
  ⟨sepRewriteAux h p v.data []⟩

/-- Claim C5 exactly as stated, as a proposition about the code: on any
dbname value the code rewrites, the result keeps the original field
separator style. -/
def C5OrigProp : Prop :=
  ∀ (v h : String) (p : Int), containsSubstr v "host=" = true →
    rewriteDbname v h p = sepRewrite h p v

/-! ### Claim C6: appending when host/port are absent -/
/-- Claim C6's hypothesis, as stated: no discrete host/port flag tokens
in either spelling, and no `host=`/`port=` fields inside dbname
connection-string values (ungated: any field counts). -/
def noHostPort : List String → Bool
  | [] => true
  | a :: rest =>
    if a = "-h" ∨ a = "--host" ∨ a = "-p" ∨ a = "--port" then false
    else if strStarts "--host=" a ∨ strStarts "--port=" a then false
    else if a = "-d" ∨ a = "--dbname" then
      match rest with
      | v :: rest2 =>
        ((pySplit v).all fun part =>
          !strStarts "host=" part && !strStarts "port=" part) && noHostPort rest2
      | [] => true
    else if strStarts "--dbname=" a then
      ((pySplit (dropPfx a 9)).all fun part =>
        !strStarts "host=" part && !strStarts "port=" part) && noHostPort rest
    else noHostPort rest

/-- Claim C6 exactly as stated, as a proposition about the code. -/
def C6OrigProp : Prop :=
  ∀ (args : List String) (dh th : String) (dp tp : Int) (st : ParseState)
    (rem : List String),
    parse_connection_args args ⟨dh, dp, false, false⟩ = .ok (st, rem) →
    noHostPort args = true →
    build_tunneled_args args th tp st.host st.port st.hasHost st.hasPort =
      args ++ ["-h", th, "-p", pyStr tp]

/-- The amended hypothesis for C6: every token passes through the
rewriting walk untouched — no discrete host/port flag token in either
spelling, no space-separated `--dbname` token, and no dbname value
containing the substring `host=`. -/
def untouchedArgs : List String → Bool
  | [] => true
  | a :: rest =>
    if a = "-h" ∨ a = "--host" ∨ a = "-p" ∨ a = "--port" ∨ a = "--dbname" then false
    else if strStarts "--host=" a ∨ strStarts "--port=" a then false
    else if a = "-d" then
      match rest with
      | v :: rest2 => !containsSubstr v "host=" && untouchedArgs rest2
      | [] => true
    else if strStarts "--dbname=" a then
      !containsSubstr (dropPfx a 9) "host=" && untouchedArgs rest
    else untouchedArgs rest

/-! ### Claim C7: round-trip of parse and rewrite -/
/-- A replacement host value that is whitespace-free and not itself
spelled like one of the scanned flags: under these side conditions the
rewritten token sequence re-parses to the same endpoint. -/
def benignHost (h : String) : Bool :=
  noWsStr h &&
    !(h = "-h" || h = "--host" || h = "-p" || h = "--port" ||
      h = "-d" || h = "--dbname") &&
    !(strStarts "--host=" h || strStarts "--port=" h || strStarts "--dbname=" h)

/-- How the rewriting walk transforms a single occurrence: every host
occurrence becomes the tunnel host, every port occurrence the printed
tunnel port. -/
def substOcc (th : String) (tp : Int) : Occ → Occ
  | .host _ => .host th
  | .port _ => .port (pyStr tp)

/-- The shape of the tail of the rewriting walk's output: either the last
input token was a complete unit (`clean`), or a trailing host/port flag
had its fresh value appended (`dangHost`/`dangPort`), or a trailing
dbname flag was emitted verbatim with no value (`dangD`), in which case
it swallows the next appended token as its value. -/
inductive CoreTail where
  | clean
  | dangHost
  | dangPort
  | dangD

/-- Which `CoreTail` shape `buildCore` ends in, following its walk. -/
def coreTailMode : List String → CoreTail
  | [] => .clean
  | arg :: rest =>
    if arg = "-h" ∨ arg = "--host" then
      match rest with
      | _ :: rest2 => coreTailMode rest2
      | [] => .dangHost
    else if strStarts "--host=" arg then coreTailMode rest
    else if arg = "-p" ∨ arg = "--port" then
      match rest with
      | _ :: rest2 => coreTailMode rest2
      | [] => .dangPort
    else if strStarts "--port=" arg then coreTailMode rest
    else if arg = "-d" ∨ arg = "--dbname" then
      match rest with
      | _ :: rest2 => coreTailMode rest2
      | [] => .dangD
    else if strStarts "--dbname=" arg then coreTailMode rest
    else coreTailMode rest

/-- The occurrences of a token list scanned as the value list of a
dangling dbname flag: the first token is consumed as the dbname value. -/
def swallowTail : List String → List Occ
  | [] => []
  | v :: rest2 => dbOccs v ++ connOccs rest2

/-- The occurrences contributed by a token list appended after the
rewriting walk's output, by tail shape: a dangling host/port flag gained
a fresh value, a dangling dbname flag swallows the first appended token
as its value. -/
def modeOccs (th : String) (tp : Int) : CoreTail → List String → List Occ
  | .clean, tail => connOccs tail
  | .dangHost, tail => .host th :: connOccs tail
  | .dangPort, tail => .port (pyStr tp) :: connOccs tail
  | .dangD, tail => swallowTail tail

/-! ### Claim C7: the claim as stated, and its counterexample -/
/-- Claim C7 exactly as stated: any accepted token sequence, rewritten
with a replacement host and port equal to its already-effective host and
port, re-parses without error to the same effective host and port. -/
def C7OrigProp : Prop :=
  ∀ (args : List String) (dh : String) (dp : Int) (st : ParseState)
    (rem : List String),
    parse_connection_args args ⟨dh, dp, false, false⟩ = .ok (st, rem) →
    ∃ st2 rem2,
      parse_connection_args
        (build_tunneled_args args st.host st.port st.host st.port
          st.hasHost st.hasPort)
        ⟨dh, dp, false, false⟩ = .ok (st2, rem2) ∧
        st2.host = st.host ∧ st2.port = st.port

/-! ## Theorems -/

/-! ### Python `str.split()` (split on whitespace runs, dropping empties) -/
theorem length_dropWhile_le (p : α → Bool) (l : List α) :
    (l.dropWhile p).length ≤ l.length := by
  induction l with
  | nil => simp [List.dropWhile]
  | cons a t ih =>
    simp only [List.dropWhile]
    cases p a
    · simp
    · simp
      omega

theorem splitWsAux_run (rest : List Char) : ∀ acc : List Char, acc ≠ [] →
    splitWsAux rest acc =
      (acc.reverse ++ rest.takeWhile (fun d => !wsChar d)) ::
        splitWs (rest.dropWhile (fun d => !wsChar d)) := by
  induction rest with
  | nil =>
    intro acc hacc
    simp [splitWsAux, splitWs, List.isEmpty_iff, hacc]
  | cons d rest ih =>
    intro acc hacc
    by_cases hd : wsChar d
    · simp only [splitWsAux, List.isEmpty_iff, hacc, if_neg hacc, hd, if_pos,
        List.takeWhile_cons, List.dropWhile_cons, Bool.not_true]
      simp [splitWs, splitWsAux, hd]
    · simp only [splitWsAux, hd, if_neg, Bool.not_false, List.takeWhile_cons,
        List.dropWhile_cons]
      rw [ih (d :: acc) (by simp)]
      simp [hd]

/-- The maximal-run unfolding of `splitWs` on a non-whitespace head. -/
theorem splitWs_run (c : Char) (rest : List Char) (h : wsChar c = false) :
    splitWs (c :: rest) =
      (c :: rest.takeWhile (fun d => !wsChar d)) ::
        splitWs (rest.dropWhile (fun d => !wsChar d)) := by
  show splitWsAux (c :: rest) [] = _
  simp only [splitWsAux, h, Bool.false_eq_true, if_false]
  rw [splitWsAux_run rest [c] (by simp)]
  rfl

theorem splitWs_ws (c : Char) (rest : List Char) (h : wsChar c = true) :
    splitWs (c :: rest) = splitWs rest := by
  show splitWsAux (c :: rest) [] = _
  simp [splitWsAux, h, splitWs]

theorem splitWs_nil : splitWs [] = [] := rfl

theorem natToRevDigitsAux_fuel_irrel (n : Nat) : ∀ f₁ f₂ : Nat, n ≤ f₁ → n ≤ f₂ →
    natToRevDigitsAux f₁ n = natToRevDigitsAux f₂ n := by
  induction n using Nat.strong_induction_on with
  | _ n ih =>
    intro f₁ f₂ h₁ h₂
    match n, f₁, f₂ with
    | 0, f₁, f₂ => cases f₁ <;> cases f₂ <;> rfl
    | m + 1, g₁ + 1, g₂ + 1 =>
      simp only [natToRevDigitsAux, List.cons.injEq, true_and]
      have hdiv : (m + 1) / 10 < m + 1 := Nat.div_lt_self (by omega) (by omega)
      exact ih ((m + 1) / 10) hdiv g₁ g₂ (by omega) (by omega)

/-- The defining recurrence of `natToRevDigits`. -/
theorem natToRevDigits_eq (n : Nat) :
    natToRevDigits n =
      if n = 0 then []
      else Char.ofNat (48 + n % 10) :: natToRevDigits (n / 10) := by
  match n with
  | 0 => rfl
  | m + 1 =>
    simp only [Nat.succ_ne_zero, if_false, natToRevDigits, natToRevDigitsAux]
    have hdiv : (m + 1) / 10 < m + 1 := Nat.div_lt_self (by omega) (by omega)
    simp only [List.cons.injEq, true_and]
    exact natToRevDigitsAux_fuel_irrel ((m + 1) / 10) m ((m + 1) / 10)
      (by omega) (by omega)

/-! ### Basic lemmas -/
theorem lastD_append (l₁ l₂ : List α) (d : α) :
    lastD (l₁ ++ l₂) d = lastD l₂ (lastD l₁ d) := by
  induction l₁ generalizing d with
  | nil => rfl
  | cons x xs ih => simp [lastD, ih]

theorem lastD_cons (x : α) (xs : List α) (d : α) :
    lastD (x :: xs) d = lastD xs x := rfl

theorem findFirstFullMatch_eq_find? (rules : List (Regex × String)) (s : String) :
    findFirstFullMatch rules s = (rules.find? fun (pr : Regex × String) => rmatch pr.1 s).map Prod.snd := by
  induction rules with
  | nil => rfl
  | cons pr rest ih =>
    obtain ⟨pat, url⟩ := pr
    by_cases h : rmatch pat s
    · simp [findFirstFullMatch, List.find?, h]
    · simp only [findFirstFullMatch, List.find?]
      rw [if_neg h]
      simp only [Bool.not_eq_true] at h
      rw [h]
      exact ih

theorem findFirstFullMatch_some {rules : List (Regex × String)} {s u : String}
    (h : findFirstFullMatch rules s = some u) :
    ∃ pr ∈ rules, rmatch pr.1 s = true ∧ pr.2 = u := by
  induction rules with
  | nil => simp [findFirstFullMatch] at h
  | cons pr rest ih =>
    obtain ⟨pat, url⟩ := pr
    by_cases hm : rmatch pat s
    · simp [findFirstFullMatch, hm] at h
      exact ⟨(pat, url), by simp, hm, h⟩
    · simp [findFirstFullMatch, hm] at h
      obtain ⟨q, hq, hq2⟩ := ih h
      exact ⟨q, by simp [hq], hq2⟩

theorem lpre_refl (l : List Char) : lpre l l = true := by
  induction l with
  | nil => rfl
  | cons a t ih => simp [lpre, ih]

theorem lpre_append_self (l t : List Char) : lpre l (l ++ t) = true := by
  induction l with
  | nil => rfl
  | cons a as ih => simp [lpre, ih]

theorem lpre_append_of_le (p q t : List Char) (h : p.length ≤ q.length) :
    lpre p (q ++ t) = lpre p q := by
  induction p generalizing q with
  | nil => simp [lpre]
  | cons a as ih =>
    match q with
    | [] => simp at h
    | b :: bs =>
      simp only [List.cons_append, lpre, List.append_eq]
      simp only [List.length_cons, Nat.succ_le_succ_iff] at h
      rw [ih bs h]

theorem strStarts_append_self (p v : String) : strStarts p (p ++ v) = true := by
  simp [strStarts, lpre_append_self]

theorem append_ne_short (p v q : String) (hlt : q.length < p.length) :
    p ++ v ≠ q := by
  intro h
  have := congrArg String.length h
  rw [String.length_append] at this
  omega

theorem strStarts_append_of_le (p q v : String) (h : p.length ≤ q.length) :
    strStarts p (q ++ v) = strStarts p q := by
  simp only [strStarts]
  exact lpre_append_of_le p.data q.data v.data h

theorem dropPfx_append (p v : String) : dropPfx (p ++ v) p.length = v := by
  show String.mk (((p ++ v).data).drop p.length) = v
  have : (p ++ v).data = p.data ++ v.data := rfl
  rw [this]
  have : p.length = p.data.length := rfl
  rw [this, List.drop_left]

/-! ### Claim C9: teardown idempotence -/
/-- C9: `stop_tunnel` is idempotent and stops the forwarding bind at most
once per start: with no tunnel (never started, or already stopped) it is
a no-op issuing no bind stops and leaving the state unchanged; with an
active tunnel it issues exactly one bind stop and leaves the manager
inactive; and a second `stop_tunnel` after any `stop_tunnel` is a no-op,
so stop composed with itself equals a single stop. -/
theorem c9_stop_tunnel_idempotent (s : ManagerState) :
    (managerActive s = false → stop_tunnel s = (s, 0)) ∧
    (managerActive s = true →
      (stop_tunnel s).2 = 1 ∧ managerActive (stop_tunnel s).1 = false) ∧
    stop_tunnel (stop_tunnel s).1 = ((stop_tunnel s).1, 0) := by
  obtain ⟨t⟩ := s
  match t with
  | none => simp [stop_tunnel, managerActive]
  | some ⟨true⟩ => simp [stop_tunnel, managerActive]
  | some ⟨false⟩ => simp [stop_tunnel, managerActive]

/-- Witness for C9 at concrete states: a manager that never started a
tunnel, and a manager holding an active tunnel. -/
theorem c9_stop_tunnel_idempotent_witness :
    stop_tunnel ⟨none⟩ = (⟨none⟩, 0) ∧
      ((stop_tunnel ⟨some ⟨true⟩⟩).2 = 1 ∧
        managerActive (stop_tunnel ⟨some ⟨true⟩⟩).1 = false) :=
  ⟨(c9_stop_tunnel_idempotent ⟨none⟩).1 (by decide),
   (c9_stop_tunnel_idempotent ⟨some ⟨true⟩⟩).2.1 (by decide)⟩

/-! ### Claim C10: long spellings are rewritten to short spellings -/
/-- One-step unfolding of the rewriting walk. -/
theorem buildCore_cons (arg : String) (rest : List String) (th : String) (tp : Int) :
    buildCore (arg :: rest) th tp =
      if arg = "-h" ∨ arg = "--host" then
        match rest with
        | _ :: rest2 => "-h" :: th :: buildCore rest2 th tp
        | [] => ["-h", th]
      else if strStarts "--host=" arg then
        ("--host=" ++ th) :: buildCore rest th tp
      else if arg = "-p" ∨ arg = "--port" then
        match rest with
        | _ :: rest2 => "-p" :: pyStr tp :: buildCore rest2 th tp
        | [] => ["-p", pyStr tp]
      else if strStarts "--port=" arg then
        ("--port=" ++ pyStr tp) :: buildCore rest th tp
      else if arg = "-d" ∨ arg = "--dbname" then
        match rest with
        | v :: rest2 =>
          if containsSubstr v "host=" then
            "-d" :: rewriteDbname v th tp :: buildCore rest2 th tp
          else
            "-d" :: v :: buildCore rest2 th tp
        | [] => arg :: buildCore [] th tp
      else if strStarts "--dbname=" arg then
        (if containsSubstr (dropPfx arg 9) "host=" then
          ("--dbname=" ++ rewriteDbname (dropPfx arg 9) th tp)
        else arg) :: buildCore rest th tp
      else arg :: buildCore rest th tp := by rw [buildCore.eq_def]

/-- C10: the rewriting walk replaces a space-separated `--host value`,
`--port value` or `--dbname value` group by the short spelling (`-h`,
`-p`, `-d`) with the substituted value, so the long flag token does not
survive rewriting; the `=`-joined spellings `--host=`, `--port=`,
`--dbname=` keep their original (long) flag spelling. -/
theorem c10_long_flags_respelled (v : String) (rest : List String)
    (h : String) (p : Int) :
    buildCore ("--host" :: v :: rest) h p = "-h" :: h :: buildCore rest h p ∧
    buildCore ("--port" :: v :: rest) h p = "-p" :: pyStr p :: buildCore rest h p ∧
    buildCore ("--dbname" :: v :: rest) h p =
      "-d" :: (if containsSubstr v "host=" then rewriteDbname v h p else v) ::
        buildCore rest h p ∧
    buildCore (("--host=" ++ v) :: rest) h p =
      ("--host=" ++ h) :: buildCore rest h p ∧
    buildCore (("--port=" ++ v) :: rest) h p =
      ("--port=" ++ pyStr p) :: buildCore rest h p ∧
    buildCore (("--dbname=" ++ v) :: rest) h p =
      (if containsSubstr v "host=" then "--dbname=" ++ rewriteDbname v h p
        else "--dbname=" ++ v) :: buildCore rest h p := by
  refine ⟨by simp +decide [buildCore_cons], by simp +decide [buildCore_cons],
    by by_cases hc : containsSubstr v "host=" <;> simp +decide [buildCore_cons, hc], ?_, ?_, ?_⟩
  · rw [buildCore_cons]
    rw [if_neg (by
      rintro (h1 | h1)
      · exact append_ne_short "--host=" v "-h" (by decide) h1
      · exact append_ne_short "--host=" v "--host" (by decide) h1)]
    rw [if_pos (strStarts_append_self "--host=" v)]
  · rw [buildCore_cons]
    rw [if_neg (by
      rintro (h1 | h1)
      · exact append_ne_short "--port=" v "-h" (by decide) h1
      · exact append_ne_short "--port=" v "--host" (by decide) h1)]
    rw [if_neg (by rw [strStarts_append_of_le _ _ _ (by decide)]; decide)]
    rw [if_neg (by
      rintro (h1 | h1)
      · exact append_ne_short "--port=" v "-p" (by decide) h1
      · exact append_ne_short "--port=" v "--port" (by decide) h1)]
    rw [if_pos (strStarts_append_self "--port=" v)]
  · rw [buildCore_cons]
    rw [if_neg (by
      rintro (h1 | h1)
      · exact append_ne_short "--dbname=" v "-h" (by decide) h1
      · exact append_ne_short "--dbname=" v "--host" (by decide) h1)]
    rw [if_neg (by rw [strStarts_append_of_le _ _ _ (by decide)]; decide)]
    rw [if_neg (by
      rintro (h1 | h1)
      · exact append_ne_short "--dbname=" v "-p" (by decide) h1
      · exact append_ne_short "--dbname=" v "--port" (by decide) h1)]
    rw [if_neg (by rw [strStarts_append_of_le _ _ _ (by decide)]; decide)]
    rw [if_neg (by
      rintro (h1 | h1)
      · exact append_ne_short "--dbname=" v "-d" (by decide) h1
      · exact append_ne_short "--dbname=" v "--dbname" (by decide) h1)]
    rw [if_pos (strStarts_append_self "--dbname=" v)]
    have hv : dropPfx ("--dbname=" ++ v) 9 = v := by
      have h9 : ("--dbname=" : String).length = 9 := by decide
      rw [← h9]
      exact dropPfx_append "--dbname=" v
    rw [hv]

/-! ### Claim C3: tunnel resolution priority -/
/-- Normal form of one rule-scanning branch of `find_tunnel_url`. -/
theorem hostBranch_eq (cfg : List (Regex × String)) (host : Option String) :
    (if strTruthy host ∧ cfg ≠ [] then findFirstFullMatch cfg (host.getD "")
      else none) =
    (match host with
      | some hh =>
        if hh ≠ "" then
          (cfg.find? fun (pr : Regex × String) => rmatch pr.1 hh).map Prod.snd
        else none
      | none => none) := by
  match host with
  | none => simp [strTruthy]
  | some hh =>
    by_cases hhh : hh = ""
    · simp [strTruthy, hhh]
    · match cfg with
      | [] => simp [strTruthy, hhh, List.find?]
      | c :: cs =>
        rw [if_pos ⟨by simp [strTruthy, hhh], by simp⟩]
        simp only [Option.getD]
        rw [findFirstFullMatch_eq_find?, if_pos hhh]

theorem match_some_eq_orElse (M H : Option α) :
    (match M with | some u => some u | none => H) = M.orElse fun _ => H := by
  cases M <;> simp [Option.orElse]

/-- C3 (amended): tunnel resolution follows the fixed priority with the
Python truthiness proviso — a *non-empty* explicit override URL always
wins; otherwise a *non-empty* supplied alias is scanned against the
alias rules in declaration order and the first full match wins;
otherwise (alias absent, empty, or unmatched) a *non-empty* host is
scanned against the host rules in declaration order; otherwise no tunnel
URL is returned and the endpoint is used unchanged. -/
theorem c3_resolution_priority (m : TunnelManager) (host dsn_alias : Option String) :
    find_tunnel_url m host dsn_alias = c3Expected m host dsn_alias := by
  unfold find_tunnel_url c3Expected
  by_cases hurl : strTruthy m.ssh_tunnel_url
  · rw [if_pos hurl, if_pos hurl]
  · rw [if_neg hurl, if_neg hurl]
    cases hd : (if strTruthy dsn_alias ∧ m.dsn_ssh_tunnel_config ≠ [] then
        findFirstFullMatch m.dsn_ssh_tunnel_config (dsn_alias.getD "")
      else none) with
    | some u =>
      rw [hostBranch_eq m.dsn_ssh_tunnel_config dsn_alias] at hd
      rw [hd]
      simp [Option.orElse]
    | none =>
      rw [hostBranch_eq m.dsn_ssh_tunnel_config dsn_alias] at hd
      rw [hd]
      simp only [Option.orElse, Option.none_orElse]
      exact hostBranch_eq m.ssh_tunnel_config host

/-- Claim C3 exactly as stated fails on the code: Python truthiness makes
`find_tunnel_url` skip the alias rules when the supplied alias is the
empty string, even though an alias rule fully matches it. -/
theorem c3_counterexample : ¬ C3OrigProp := by
  intro hAll
  have h := hAll ⟨none, [], [(.star .dot, "urlA")]⟩ (some "h") (some "")
  revert h
  decide

/-- C4: rule matching uses full-match semantics.  A host rule is selected
only if its pattern's language contains the entire candidate host, and in
particular the pattern `db\.prod\.com` selects host `db.prod.com` but not
`xdb.prod.comx`, even though `db.prod.com` occurs inside it as a proper
substring. -/
theorem c4_full_match_semantics :
    (∀ (rules : List (Regex × String)) (h u : String),
        find_tunnel_url ⟨none, rules, []⟩ (some h) none = some u →
        ∃ pr ∈ rules, rmatch pr.1 h = true ∧ pr.2 = u) ∧
    find_tunnel_url c4Manager (some "xdb.prod.comx") none = none ∧
    find_tunnel_url c4Manager (some "db.prod.com") none = some "ssh://jumphost" ∧
    isSubstr "db.prod.com".data "xdb.prod.comx".data = true := by
  refine ⟨?_, by decide, by decide, by decide⟩
  intro rules h u hfind
  have hred : find_tunnel_url ⟨none, rules, []⟩ (some h) none =
      (if strTruthy (some h) ∧ rules ≠ [] then findFirstFullMatch rules h
        else none) := rfl
  rw [hred] at hfind
  by_cases hcond : strTruthy (some h) ∧ rules ≠ []
  · rw [if_pos hcond] at hfind
    exact findFirstFullMatch_some hfind
  · rw [if_neg hcond] at hfind
    cases hfind

/-- Witness for C4's general conjunct at a concrete rule list. -/
theorem c4_full_match_semantics_witness :
    ∃ pr ∈ [(rlit "a", "u")], rmatch pr.1 "a" = true ∧ pr.2 = "u" :=
  c4_full_match_semantics.1 [(rlit "a", "u")] "a" "u" (by decide)

@[simp] theorem hostVals_nil : hostVals [] = [] := rfl

@[simp] theorem portVals_nil : portVals [] = [] := rfl

@[simp] theorem hostVals_cons_host (v : String) (l : List Occ) :
    hostVals (.host v :: l) = v :: hostVals l := rfl

@[simp] theorem hostVals_cons_port (v : String) (l : List Occ) :
    hostVals (.port v :: l) = hostVals l := rfl

@[simp] theorem portVals_cons_host (v : String) (l : List Occ) :
    portVals (.host v :: l) = portVals l := rfl

@[simp] theorem portVals_cons_port (v : String) (l : List Occ) :
    portVals (.port v :: l) = v :: portVals l := rfl

@[simp] theorem hostVals_append (l₁ l₂ : List Occ) :
    hostVals (l₁ ++ l₂) = hostVals l₁ ++ hostVals l₂ := by
  simp [hostVals]

@[simp] theorem portVals_append (l₁ l₂ : List Occ) :
    portVals (l₁ ++ l₂) = portVals l₁ ++ portVals l₂ := by
  simp [portVals]

theorem portInts_nil : portInts [] = [] := rfl

theorem portInts_append (l₁ l₂ : List Occ) :
    portInts (l₁ ++ l₂) = portInts l₁ ++ portInts l₂ := by
  simp [portInts]

@[simp] theorem portInts_cons_host (v : String) (l : List Occ) :
    portInts (.host v :: l) = portInts l := by
  simp [portInts]

/-- The main characterization of the connection-string field scan: with a
malformed port field it raises naming the first offending value, and with
all port fields valid it applies "last occurrence wins" to the fields. -/
theorem scanConnStr_spec (parts : List String) (st : ParseState) :
    (∀ s, ((portVals (parts.filterMap partOcc)).find? fun x => !validInt x) = some s →
        scanConnStr parts st = .error (intErrMsg s)) ∧
    ((portVals (parts.filterMap partOcc)).all validInt = true →
      scanConnStr parts st = .ok
        ⟨lastD (hostVals (parts.filterMap partOcc)) st.host,
          lastD (portInts (parts.filterMap partOcc)) st.port,
          st.hasHost || !(hostVals (parts.filterMap partOcc)).isEmpty,
          st.hasPort || !(portVals (parts.filterMap partOcc)).isEmpty⟩) := by
  induction parts, st using scanConnStr.induct with
  | case1 st =>
    constructor
    · intro s hs
      simp [portVals] at hs
    · intro _
      simp [scanConnStr, lastD]
  | case2 part rest st hhost ih =>
    have hocc : (part :: rest).filterMap partOcc =
        .host (dropPfx part 5) :: rest.filterMap partOcc := by
      simp [List.filterMap_cons, partOcc, hhost]
    have hstep : scanConnStr (part :: rest) st =
        scanConnStr rest { st with host := dropPfx part 5, hasHost := true } := by
      simp [scanConnStr, hhost]
    rw [hocc, hstep]
    constructor
    · intro s hs
      simp only [portVals_cons_host] at hs
      exact ih.1 s hs
    · intro hall
      simp only [portVals_cons_host] at hall
      rw [ih.2 hall]
      simp [lastD_cons, portInts]
  | case3 part rest st hnh hport n hn ih =>
    have hocc : (part :: rest).filterMap partOcc =
        .port (dropPfx part 5) :: rest.filterMap partOcc := by
      simp [List.filterMap_cons, partOcc, hnh, hport]
    have hstep : scanConnStr (part :: rest) st =
        scanConnStr rest { st with port := n, hasPort := true } := by
      simp [scanConnStr, hnh, hport, hn]
    rw [hocc, hstep]
    have hvalid : validInt (dropPfx part 5) = true := by simp [validInt, hn]
    constructor
    · intro s hs
      simp only [portVals_cons_port, List.find?_cons, hvalid] at hs
      exact ih.1 s hs
    · intro hall
      simp only [portVals_cons_port, List.all_cons, hvalid, Bool.true_and] at hall
      rw [ih.2 hall]
      simp [lastD_cons, portInts, List.filterMap_cons, hn]
  | case4 part rest st hnh hport hn =>
    have hocc : (part :: rest).filterMap partOcc =
        .port (dropPfx part 5) :: rest.filterMap partOcc := by
      simp [List.filterMap_cons, partOcc, hnh, hport]
    have hstep : scanConnStr (part :: rest) st =
        .error (intErrMsg (dropPfx part 5)) := by
      simp [scanConnStr, hnh, hport, hn]
    have hinvalid : validInt (dropPfx part 5) = false := by simp [validInt, hn]
    rw [hocc, hstep]
    constructor
    · intro s hs
      simp only [portVals_cons_port, List.find?_cons, hinvalid] at hs
      simp at hs
      rw [hs]
    · intro hall
      simp [hinvalid] at hall
  | case5 part rest st hnh hnp ih =>
    have hocc : (part :: rest).filterMap partOcc = rest.filterMap partOcc := by
      simp [List.filterMap_cons, partOcc, hnh, hnp]
    have hstep : scanConnStr (part :: rest) st = scanConnStr rest st := by
      simp [scanConnStr, hnh, hnp]
    rw [hocc, hstep]
    exact ih

/-- One-step unfolding of the occurrence scan. -/
theorem connOccsWith_cons (db : String → List Occ) (a : String) (rest : List String) :
    connOccsWith db (a :: rest) =
      (if a = "-h" ∨ a = "--host" then
        match rest with
        | v :: rest2 => .host v :: connOccsWith db rest2
        | [] => []
      else if strStarts "--host=" a then .host (dropPfx a 7) :: connOccsWith db rest
      else if a = "-p" ∨ a = "--port" then
        match rest with
        | v :: rest2 => .port v :: connOccsWith db rest2
        | [] => []
      else if strStarts "--port=" a then .port (dropPfx a 7) :: connOccsWith db rest
      else if a = "-d" ∨ a = "--dbname" then
        match rest with
        | v :: rest2 => db v ++ connOccsWith db rest2
        | [] => []
      else if strStarts "--dbname=" a then db (dropPfx a 9) ++ connOccsWith db rest
      else connOccsWith db rest) := by
  rw [connOccsWith.eq_def]

/-- One-step unfolding of the parser loop. -/
theorem parse_cons (arg : String) (rest : List String) (st : ParseState) :
    parse_connection_args (arg :: rest) st =
      (if arg = "-h" ∨ arg = "--host" then
        match rest with
        | v :: rest2 =>
          match parse_connection_args rest2 { st with host := v, hasHost := true } with
          | .ok (st2, rem) => .ok (st2, arg :: v :: rem)
          | .error e => .error e
        | [] => .ok (st, [arg])
      else if strStarts "--host=" arg then
        match parse_connection_args rest { st with host := dropPfx arg 7, hasHost := true } with
        | .ok (st2, rem) => .ok (st2, arg :: rem)
        | .error e => .error e
      else if arg = "-p" ∨ arg = "--port" then
        match rest with
        | v :: rest2 =>
          match pyInt v with
          | some n =>
            match parse_connection_args rest2 { st with port := n, hasPort := true } with
            | .ok (st2, rem) => .ok (st2, arg :: v :: rem)
            | .error e => .error e
          | none => .error (intErrMsg v)
        | [] => .ok (st, [arg])
      else if strStarts "--port=" arg then
        match pyInt (dropPfx arg 7) with
        | some n =>
          match parse_connection_args rest { st with port := n, hasPort := true } with
          | .ok (st2, rem) => .ok (st2, arg :: rem)
          | .error e => .error e
        | none => .error (intErrMsg (dropPfx arg 7))
      else if arg = "-d" ∨ arg = "--dbname" then
        match rest with
        | v :: rest2 =>
          match processDbname v st with
          | .ok st1 =>
            match parse_connection_args rest2 st1 with
            | .ok (st2, rem) => .ok (st2, arg :: v :: rem)
            | .error e => .error e
          | .error e => .error e
        | [] => .ok (st, [arg])
      else if strStarts "--dbname=" arg then
        match processDbname (dropPfx arg 9) st with
        | .ok st1 =>
          match parse_connection_args rest st1 with
          | .ok (st2, rem) => .ok (st2, arg :: rem)
          | .error e => .error e
        | .error e => .error e
      else
        match parse_connection_args rest st with
        | .ok (st2, rem) => .ok (st2, arg :: rem)
        | .error e => .error e) := by
  rw [parse_connection_args.eq_def]

theorem isEmpty_append (l₁ l₂ : List α) :
    (l₁ ++ l₂).isEmpty = (l₁.isEmpty && l₂.isEmpty) := by
  cases l₁ <;> simp

/-! Group-by-group shapes of the occurrence list. -/
theorem connOccs_hFlag (a v : String) (rest : List String)
    (h : a = "-h" ∨ a = "--host") :
    connOccs (a :: v :: rest) = .host v :: connOccs rest := by
  simp only [connOccs]
  rw [connOccsWith_cons, if_pos h]

theorem connOccs_hFlag_nil (a : String) (h : a = "-h" ∨ a = "--host") :
    connOccs [a] = [] := by
  simp only [connOccs]
  rw [connOccsWith_cons, if_pos h]

theorem connOccs_hEq (a : String) (rest : List String)
    (h1 : ¬(a = "-h" ∨ a = "--host")) (h2 : strStarts "--host=" a = true) :
    connOccs (a :: rest) = .host (dropPfx a 7) :: connOccs rest := by
  simp only [connOccs]
  rw [connOccsWith_cons, if_neg h1, if_pos h2]

theorem connOccs_pFlag (a v : String) (rest : List String)
    (h1 : ¬(a = "-h" ∨ a = "--host")) (h2 : ¬strStarts "--host=" a = true)
    (h3 : a = "-p" ∨ a = "--port") :
    connOccs (a :: v :: rest) = .port v :: connOccs rest := by
  simp only [connOccs]
  rw [connOccsWith_cons, if_neg h1, if_neg h2, if_pos h3]

theorem connOccs_pFlag_nil (a : String)
    (h1 : ¬(a = "-h" ∨ a = "--host")) (h2 : ¬strStarts "--host=" a = true)
    (h3 : a = "-p" ∨ a = "--port") :
    connOccs [a] = [] := by
  simp only [connOccs]
  rw [connOccsWith_cons, if_neg h1, if_neg h2, if_pos h3]

theorem connOccs_pEq (a : String) (rest : List String)
    (h1 : ¬(a = "-h" ∨ a = "--host")) (h2 : ¬strStarts "--host=" a = true)
    (h3 : ¬(a = "-p" ∨ a = "--port")) (h4 : strStarts "--port=" a = true) :
    connOccs (a :: rest) = .port (dropPfx a 7) :: connOccs rest := by
  simp only [connOccs]
  rw [connOccsWith_cons, if_neg h1, if_neg h2, if_neg h3, if_pos h4]

theorem connOccs_dFlag (a v : String) (rest : List String)
    (h1 : ¬(a = "-h" ∨ a = "--host")) (h2 : ¬strStarts "--host=" a = true)
    (h3 : ¬(a = "-p" ∨ a = "--port")) (h4 : ¬strStarts "--port=" a = true)
    (h5 : a = "-d" ∨ a = "--dbname") :
    connOccs (a :: v :: rest) = dbOccs v ++ connOccs rest := by
  simp only [connOccs]
  rw [connOccsWith_cons, if_neg h1, if_neg h2, if_neg h3, if_neg h4, if_pos h5]

theorem connOccs_dFlag_nil (a : String)
    (h1 : ¬(a = "-h" ∨ a = "--host")) (h2 : ¬strStarts "--host=" a = true)
    (h3 : ¬(a = "-p" ∨ a = "--port")) (h4 : ¬strStarts "--port=" a = true)
    (h5 : a = "-d" ∨ a = "--dbname") :
    connOccs [a] = [] := by
  simp only [connOccs]
  rw [connOccsWith_cons, if_neg h1, if_neg h2, if_neg h3, if_neg h4, if_pos h5]

theorem connOccs_dEq (a : String) (rest : List String)
    (h1 : ¬(a = "-h" ∨ a = "--host")) (h2 : ¬strStarts "--host=" a = true)
    (h3 : ¬(a = "-p" ∨ a = "--port")) (h4 : ¬strStarts "--port=" a = true)
    (h5 : ¬(a = "-d" ∨ a = "--dbname")) (h6 : strStarts "--dbname=" a = true) :
    connOccs (a :: rest) = dbOccs (dropPfx a 9) ++ connOccs rest := by
  simp only [connOccs]
  rw [connOccsWith_cons, if_neg h1, if_neg h2, if_neg h3, if_neg h4, if_neg h5, if_pos h6]

theorem connOccs_plain (a : String) (rest : List String)
    (h1 : ¬(a = "-h" ∨ a = "--host")) (h2 : ¬strStarts "--host=" a = true)
    (h3 : ¬(a = "-p" ∨ a = "--port")) (h4 : ¬strStarts "--port=" a = true)
    (h5 : ¬(a = "-d" ∨ a = "--dbname")) (h6 : ¬strStarts "--dbname=" a = true) :
    connOccs (a :: rest) = connOccs rest := by
  simp only [connOccs]
  rw [connOccsWith_cons, if_neg h1, if_neg h2, if_neg h3, if_neg h4, if_neg h5, if_neg h6]

/-- The occurrence-list contribution of one dbname value, with the same
error/ok characterization as `scanConnStr_spec`, gate included. -/
theorem processDbname_spec (v : String) (st : ParseState) :
    (∀ s, ((portVals (dbOccs v)).find? fun x => !validInt x) = some s →
        processDbname v st = .error (intErrMsg s)) ∧
    ((portVals (dbOccs v)).all validInt = true →
      processDbname v st = .ok
        ⟨lastD (hostVals (dbOccs v)) st.host,
          lastD (portInts (dbOccs v)) st.port,
          st.hasHost || !(hostVals (dbOccs v)).isEmpty,
          st.hasPort || !(portVals (dbOccs v)).isEmpty⟩) := by
  by_cases hg : containsSubstr v "host="
  · have h1 : dbOccs v = (pySplit v).filterMap partOcc := by simp [dbOccs, hg]
    have h2 : processDbname v st = scanConnStr (pySplit v) st := by
      simp [processDbname, hg]
    rw [h1, h2]
    exact scanConnStr_spec (pySplit v) st
  · have h1 : dbOccs v = [] := by simp [dbOccs, hg]
    have h2 : processDbname v st = .ok st := by simp [processDbname, hg]
    rw [h1, h2]
    constructor
    · intro s hs
      simp [portVals] at hs
    · intro _
      simp [lastD]

/-- Master characterization of `parse_connection_args` by the occurrence
list: the parse fails exactly on the first invalid port occurrence value
(naming it), and otherwise realizes "last occurrence wins" with the
pass-through copy of the tokens. -/
theorem parse_spec (args : List String) (st : ParseState) :
    (∀ s, ((portVals (connOccs args)).find? fun x => !validInt x) = some s →
        parse_connection_args args st = .error (intErrMsg s)) ∧
    ((portVals (connOccs args)).all validInt = true →
      parse_connection_args args st = .ok (specState args st, args)) := by
  induction args, st using parse_connection_args.induct with
  | case1 st =>
    constructor
    · intro s hs
      simp [connOccs, connOccsWith, portVals] at hs
    · intro _
      simp [parse_connection_args, specState, connOccs, connOccsWith, lastD]
  | case2 part st h v rest2 st2 rem hpar ih =>
    simp only [specState]
    rw [connOccs_hFlag part v rest2 h]
    have hstep : parse_connection_args (part :: v :: rest2) st = .ok (st2, part :: v :: rem) := by
      rw [parse_cons, if_pos h]
      simp only [hpar]
    constructor
    · intro s hs
      simp only [portVals_cons_host] at hs
      rw [ih.1 s hs] at hpar
      cases hpar
    · intro hall
      simp only [portVals_cons_host] at hall
      have h2 := hpar.symm.trans (ih.2 hall)
      simp only [Except.ok.injEq, Prod.mk.injEq] at h2
      obtain ⟨hst2, hrem⟩ := h2
      rw [hstep, hst2, hrem]
      simp [specState, lastD_cons]
  | case3 part st h v rest2 e hpar ih =>
    simp only [specState]
    rw [connOccs_hFlag part v rest2 h]
    have hstep : parse_connection_args (part :: v :: rest2) st = .error e := by
      rw [parse_cons, if_pos h]
      simp only [hpar]
    constructor
    · intro s hs
      simp only [portVals_cons_host] at hs
      rw [ih.1 s hs] at hpar
      rw [hstep]
      simp only [Except.error.injEq] at hpar ⊢
      exact hpar.symm
    · intro hall
      simp only [portVals_cons_host] at hall
      rw [ih.2 hall] at hpar
      cases hpar
  | case4 part st h =>
    simp only [specState]
    rw [connOccs_hFlag_nil part h]
    have hstep : parse_connection_args [part] st = .ok (st, [part]) := by
      rw [parse_cons, if_pos h]
    constructor
    · intro s hs
      simp [portVals] at hs
    · intro _
      rw [hstep]
      simp [specState, connOccs_hFlag_nil part h, lastD]
  | case5 part rest st h1 h2 st2 rem hpar ih =>
    simp only [specState]
    rw [connOccs_hEq part rest h1 h2]
    have hstep : parse_connection_args (part :: rest) st = .ok (st2, part :: rem) := by
      rw [parse_cons, if_neg h1, if_pos h2]
      simp only [hpar]
    constructor
    · intro s hs
      simp only [portVals_cons_host] at hs
      rw [ih.1 s hs] at hpar
      cases hpar
    · intro hall
      simp only [portVals_cons_host] at hall
      have h3 := hpar.symm.trans (ih.2 hall)
      simp only [Except.ok.injEq, Prod.mk.injEq] at h3
      obtain ⟨hst2, hrem⟩ := h3
      rw [hstep, hst2, hrem]
      simp [specState, lastD_cons]
  | case6 part rest st h1 h2 e hpar ih =>
    simp only [specState]
    rw [connOccs_hEq part rest h1 h2]
    have hstep : parse_connection_args (part :: rest) st = .error e := by
      rw [parse_cons, if_neg h1, if_pos h2]
      simp only [hpar]
    constructor
    · intro s hs
      simp only [portVals_cons_host] at hs
      rw [ih.1 s hs] at hpar
      rw [hstep]
      simp only [Except.error.injEq] at hpar ⊢
      exact hpar.symm
    · intro hall
      simp only [portVals_cons_host] at hall
      rw [ih.2 hall] at hpar
      cases hpar
  | case7 part st h1 h2 h3 v rest2 n hn st2 rem hpar ih =>
    simp only [specState]
    rw [connOccs_pFlag part v rest2 h1 h2 h3]
    have hvalid : validInt v = true := by simp [validInt, hn]
    have hstep : parse_connection_args (part :: v :: rest2) st = .ok (st2, part :: v :: rem) := by
      rw [parse_cons, if_neg h1, if_neg h2, if_pos h3]
      simp only [hn, hpar]
    constructor
    · intro s hs
      simp only [portVals_cons_port, List.find?_cons, hvalid] at hs
      simp only [Bool.not_true] at hs
      rw [ih.1 s hs] at hpar
      cases hpar
    · intro hall
      simp only [portVals_cons_port, List.all_cons, hvalid, Bool.true_and] at hall
      have h4 := hpar.symm.trans (ih.2 hall)
      simp only [Except.ok.injEq, Prod.mk.injEq] at h4
      obtain ⟨hst2, hrem⟩ := h4
      rw [hstep, hst2, hrem]
      simp [specState, lastD_cons, portInts, List.filterMap_cons, hn]
  | case8 part st h1 h2 h3 v rest2 n hn e hpar ih =>
    simp only [specState]
    rw [connOccs_pFlag part v rest2 h1 h2 h3]
    have hvalid : validInt v = true := by simp [validInt, hn]
    have hstep : parse_connection_args (part :: v :: rest2) st = .error e := by
      rw [parse_cons, if_neg h1, if_neg h2, if_pos h3]
      simp only [hn, hpar]
    constructor
    · intro s hs
      simp only [portVals_cons_port, List.find?_cons, hvalid] at hs
      simp only [Bool.not_true] at hs
      rw [ih.1 s hs] at hpar
      rw [hstep]
      simp only [Except.error.injEq] at hpar ⊢
      exact hpar.symm
    · intro hall
      simp only [portVals_cons_port, List.all_cons, hvalid, Bool.true_and] at hall
      rw [ih.2 hall] at hpar
      cases hpar
  | case9 part st h1 h2 h3 v rest2 hn =>
    simp only [specState]
    rw [connOccs_pFlag part v rest2 h1 h2 h3]
    have hinvalid : validInt v = false := by simp [validInt, hn]
    have hstep : parse_connection_args (part :: v :: rest2) st = .error (intErrMsg v) := by
      rw [parse_cons, if_neg h1, if_neg h2, if_pos h3]
      simp only [hn]
    constructor
    · intro s hs
      simp only [portVals_cons_port, List.find?_cons, hinvalid] at hs
      simp only [Bool.not_false, Option.some.injEq] at hs
      rw [hstep, hs]
    · intro hall
      simp [hinvalid] at hall
  | case10 part st h1 h2 h3 =>
    simp only [specState]
    rw [connOccs_pFlag_nil part h1 h2 h3]
    have hstep : parse_connection_args [part] st = .ok (st, [part]) := by
      rw [parse_cons, if_neg h1, if_neg h2, if_pos h3]
    constructor
    · intro s hs
      simp [portVals] at hs
    · intro _
      rw [hstep]
      simp [specState, connOccs_pFlag_nil part h1 h2 h3, lastD]
  | case11 part rest st h1 h2 h3 h4 n hn st2 rem hpar ih =>
    simp only [specState]
    rw [connOccs_pEq part rest h1 h2 h3 h4]
    have hvalid : validInt (dropPfx part 7) = true := by simp [validInt, hn]
    have hstep : parse_connection_args (part :: rest) st = .ok (st2, part :: rem) := by
      rw [parse_cons, if_neg h1, if_neg h2, if_neg h3, if_pos h4]
      simp only [hn, hpar]
    constructor
    · intro s hs
      simp only [portVals_cons_port, List.find?_cons, hvalid] at hs
      simp only [Bool.not_true] at hs
      rw [ih.1 s hs] at hpar
      cases hpar
    · intro hall
      simp only [portVals_cons_port, List.all_cons, hvalid, Bool.true_and] at hall
      have h5 := hpar.symm.trans (ih.2 hall)
      simp only [Except.ok.injEq, Prod.mk.injEq] at h5
      obtain ⟨hst2, hrem⟩ := h5
      rw [hstep, hst2, hrem]
      simp [specState, lastD_cons, portInts, List.filterMap_cons, hn]
  | case12 part rest st h1 h2 h3 h4 n hn e hpar ih =>
    simp only [specState]
    rw [connOccs_pEq part rest h1 h2 h3 h4]
    have hvalid : validInt (dropPfx part 7) = true := by simp [validInt, hn]
    have hstep : parse_connection_args (part :: rest) st = .error e := by
      rw [parse_cons, if_neg h1, if_neg h2, if_neg h3, if_pos h4]
      simp only [hn, hpar]
    constructor
    · intro s hs
      simp only [portVals_cons_port, List.find?_cons, hvalid] at hs
      simp only [Bool.not_true] at hs
      rw [ih.1 s hs] at hpar
      rw [hstep]
      simp only [Except.error.injEq] at hpar ⊢
      exact hpar.symm
    · intro hall
      simp only [portVals_cons_port, List.all_cons, hvalid, Bool.true_and] at hall
      rw [ih.2 hall] at hpar
      cases hpar
  | case13 part rest st h1 h2 h3 h4 hn =>
    simp only [specState]
    rw [connOccs_pEq part rest h1 h2 h3 h4]
    have hinvalid : validInt (dropPfx part 7) = false := by simp [validInt, hn]
    have hstep : parse_connection_args (part :: rest) st =
        .error (intErrMsg (dropPfx part 7)) := by
      rw [parse_cons, if_neg h1, if_neg h2, if_neg h3, if_pos h4]
      simp only [hn]
    constructor
    · intro s hs
      simp only [portVals_cons_port, List.find?_cons, hinvalid] at hs
      simp only [Bool.not_false, Option.some.injEq] at hs
      rw [hstep, hs]
    · intro hall
      simp [hinvalid] at hall
  | case14 part st h1 h2 h3 h4 h5 v rest2 st1 hpd st2 rem hpar ih =>
    simp only [specState]
    rw [connOccs_dFlag part v rest2 h1 h2 h3 h4 h5]
    have hstep : parse_connection_args (part :: v :: rest2) st = .ok (st2, part :: v :: rem) := by
      rw [parse_cons, if_neg h1, if_neg h2, if_neg h3, if_neg h4, if_pos h5]
      simp only [hpd, hpar]
    constructor
    · intro s hs
      rw [portVals_append, List.find?_append] at hs
      match hA : (portVals (dbOccs v)).find? fun x => !validInt x with
      | some s₀ =>
        rw [(processDbname_spec v st).1 s₀ hA] at hpd
        cases hpd
      | none =>
        rw [hA] at hs
        simp only [Option.none_or] at hs
        rw [ih.1 s hs] at hpar
        cases hpar
    · intro hall
      rw [portVals_append, List.all_append, Bool.and_eq_true] at hall
      obtain ⟨hallA, hallB⟩ := hall
      have hpd2 := hpd.symm.trans ((processDbname_spec v st).2 hallA)
      simp only [Except.ok.injEq] at hpd2
      have h6 := hpar.symm.trans (ih.2 hallB)
      simp only [Except.ok.injEq, Prod.mk.injEq] at h6
      obtain ⟨hst2, hrem⟩ := h6
      rw [hstep, hst2, hrem, hpd2]
      simp [specState, lastD_append, portInts_append, isEmpty_append,
        Bool.or_assoc, Bool.not_and]
  | case15 part st h1 h2 h3 h4 h5 v rest2 st1 hpd e hpar ih =>
    simp only [specState]
    rw [connOccs_dFlag part v rest2 h1 h2 h3 h4 h5]
    have hstep : parse_connection_args (part :: v :: rest2) st = .error e := by
      rw [parse_cons, if_neg h1, if_neg h2, if_neg h3, if_neg h4, if_pos h5]
      simp only [hpd, hpar]
    constructor
    · intro s hs
      rw [portVals_append, List.find?_append] at hs
      match hA : (portVals (dbOccs v)).find? fun x => !validInt x with
      | some s₀ =>
        rw [(processDbname_spec v st).1 s₀ hA] at hpd
        cases hpd
      | none =>
        rw [hA] at hs
        simp only [Option.none_or] at hs
        rw [ih.1 s hs] at hpar
        rw [hstep]
        simp only [Except.error.injEq] at hpar ⊢
        exact hpar.symm
    · intro hall
      rw [portVals_append, List.all_append, Bool.and_eq_true] at hall
      obtain ⟨hallA, hallB⟩ := hall
      have hpd2 := hpd.symm.trans ((processDbname_spec v st).2 hallA)
      simp only [Except.ok.injEq] at hpd2
      rw [ih.2 hallB] at hpar
      cases hpar
  | case16 part st h1 h2 h3 h4 h5 v rest2 e hpd =>
    simp only [specState]
    rw [connOccs_dFlag part v rest2 h1 h2 h3 h4 h5]
    have hstep : parse_connection_args (part :: v :: rest2) st = .error e := by
      rw [parse_cons, if_neg h1, if_neg h2, if_neg h3, if_neg h4, if_pos h5]
      simp only [hpd]
    have hsome : ∃ s₀, ((portVals (dbOccs v)).find? fun x => !validInt x) = some s₀ := by
      by_contra hns
      push_neg at hns
      have hnone : ((portVals (dbOccs v)).find? fun x => !validInt x) = none := by
        match hA : (portVals (dbOccs v)).find? fun x => !validInt x with
        | some s₀ => exact absurd hA (hns s₀)
        | none => rfl
      have hallA : (portVals (dbOccs v)).all validInt = true := by
        rw [List.find?_eq_none] at hnone
        rw [List.all_eq_true]
        intro x hx
        have := hnone x hx
        simpa using this
      rw [(processDbname_spec v st).2 hallA] at hpd
      cases hpd
    obtain ⟨s₀, hA⟩ := hsome
    have herr := (processDbname_spec v st).1 s₀ hA
    rw [herr] at hpd
    simp only [Except.error.injEq] at hpd
    constructor
    · intro s hs
      rw [portVals_append, List.find?_append, hA] at hs
      simp only [Option.or, Option.some.injEq] at hs
      rw [hstep, ← hpd, hs]
    · intro hall
      rw [portVals_append, List.all_append, Bool.and_eq_true] at hall
      obtain ⟨hallA, _⟩ := hall
      rw [List.all_eq_true] at hallA
      have hmem := List.mem_of_find?_eq_some hA
      have := hallA s₀ hmem
      have hfs := List.find?_some hA
      simp [this] at hfs
  | case17 part st h1 h2 h3 h4 h5 =>
    simp only [specState]
    rw [connOccs_dFlag_nil part h1 h2 h3 h4 h5]
    have hstep : parse_connection_args [part] st = .ok (st, [part]) := by
      rw [parse_cons, if_neg h1, if_neg h2, if_neg h3, if_neg h4, if_pos h5]
    constructor
    · intro s hs
      simp [portVals] at hs
    · intro _
      rw [hstep]
      simp [specState, connOccs_dFlag_nil part h1 h2 h3 h4 h5, lastD]
  | case18 part rest st h1 h2 h3 h4 h5 h6 st1 hpd st2 rem hpar ih =>
    simp only [specState]
    rw [connOccs_dEq part rest h1 h2 h3 h4 h5 h6]
    have hstep : parse_connection_args (part :: rest) st = .ok (st2, part :: rem) := by
      rw [parse_cons, if_neg h1, if_neg h2, if_neg h3, if_neg h4, if_neg h5, if_pos h6]
      simp only [hpd, hpar]
    constructor
    · intro s hs
      rw [portVals_append, List.find?_append] at hs
      match hA : (portVals (dbOccs (dropPfx part 9))).find? fun x => !validInt x with
      | some s₀ =>
        rw [(processDbname_spec (dropPfx part 9) st).1 s₀ hA] at hpd
        cases hpd
      | none =>
        rw [hA] at hs
        simp only [Option.none_or] at hs
        rw [ih.1 s hs] at hpar
        cases hpar
    · intro hall
      rw [portVals_append, List.all_append, Bool.and_eq_true] at hall
      obtain ⟨hallA, hallB⟩ := hall
      have hpd2 := hpd.symm.trans ((processDbname_spec (dropPfx part 9) st).2 hallA)
      simp only [Except.ok.injEq] at hpd2
      have h7 := hpar.symm.trans (ih.2 hallB)
      simp only [Except.ok.injEq, Prod.mk.injEq] at h7
      obtain ⟨hst2, hrem⟩ := h7
      rw [hstep, hst2, hrem, hpd2]
      simp [specState, lastD_append, portInts_append, isEmpty_append,
        Bool.or_assoc, Bool.not_and]
  | case19 part rest st h1 h2 h3 h4 h5 h6 st1 hpd e hpar ih =>
    simp only [specState]
    rw [connOccs_dEq part rest h1 h2 h3 h4 h5 h6]
    have hstep : parse_connection_args (part :: rest) st = .error e := by
      rw [parse_cons, if_neg h1, if_neg h2, if_neg h3, if_neg h4, if_neg h5, if_pos h6]
      simp only [hpd, hpar]
    constructor
    · intro s hs
      rw [portVals_append, List.find?_append] at hs
      match hA : (portVals (dbOccs (dropPfx part 9))).find? fun x => !validInt x with
      | some s₀ =>
        rw [(processDbname_spec (dropPfx part 9) st).1 s₀ hA] at hpd
        cases hpd
      | none =>
        rw [hA] at hs
        simp only [Option.none_or] at hs
        rw [ih.1 s hs] at hpar
        rw [hstep]
        simp only [Except.error.injEq] at hpar ⊢
        exact hpar.symm
    · intro hall
      rw [portVals_append, List.all_append, Bool.and_eq_true] at hall
      obtain ⟨hallA, hallB⟩ := hall
      have hpd2 := hpd.symm.trans ((processDbname_spec (dropPfx part 9) st).2 hallA)
      simp only [Except.ok.injEq] at hpd2
      rw [ih.2 hallB] at hpar
      cases hpar
  | case20 part rest st h1 h2 h3 h4 h5 h6 e hpd =>
    simp only [specState]
    rw [connOccs_dEq part rest h1 h2 h3 h4 h5 h6]
    have hstep : parse_connection_args (part :: rest) st = .error e := by
      rw [parse_cons, if_neg h1, if_neg h2, if_neg h3, if_neg h4, if_neg h5, if_pos h6]
      simp only [hpd]
    have hsome : ∃ s₀,
        ((portVals (dbOccs (dropPfx part 9))).find? fun x => !validInt x) = some s₀ := by
      by_contra hns
      push_neg at hns
      have hnone : ((portVals (dbOccs (dropPfx part 9))).find? fun x => !validInt x) = none := by
        match hA : (portVals (dbOccs (dropPfx part 9))).find? fun x => !validInt x with
        | some s₀ => exact absurd hA (hns s₀)
        | none => rfl
      have hallA : (portVals (dbOccs (dropPfx part 9))).all validInt = true := by
        rw [List.find?_eq_none] at hnone
        rw [List.all_eq_true]
        intro x hx
        have := hnone x hx
        simpa using this
      rw [(processDbname_spec (dropPfx part 9) st).2 hallA] at hpd
      cases hpd
    obtain ⟨s₀, hA⟩ := hsome
    have herr := (processDbname_spec (dropPfx part 9) st).1 s₀ hA
    rw [herr] at hpd
    simp only [Except.error.injEq] at hpd
    constructor
    · intro s hs
      rw [portVals_append, List.find?_append, hA] at hs
      simp only [Option.or, Option.some.injEq] at hs
      rw [hstep, ← hpd, hs]
    · intro hall
      rw [portVals_append, List.all_append, Bool.and_eq_true] at hall
      obtain ⟨hallA, _⟩ := hall
      rw [List.all_eq_true] at hallA
      have hmem := List.mem_of_find?_eq_some hA
      have := hallA s₀ hmem
      have hfs := List.find?_some hA
      simp [this] at hfs
  | case21 part rest st h1 h2 h3 h4 h5 h6 st2 rem hpar ih =>
    simp only [specState]
    rw [connOccs_plain part rest h1 h2 h3 h4 h5 h6]
    have hstep : parse_connection_args (part :: rest) st = .ok (st2, part :: rem) := by
      rw [parse_cons, if_neg h1, if_neg h2, if_neg h3, if_neg h4, if_neg h5, if_neg h6]
      simp only [hpar]
    constructor
    · intro s hs
      rw [ih.1 s hs] at hpar
      cases hpar
    · intro hall
      have h7 := hpar.symm.trans (ih.2 hall)
      simp only [Except.ok.injEq, Prod.mk.injEq] at h7
      obtain ⟨hst2, hrem⟩ := h7
      rw [hstep, hst2, hrem]
      simp [specState, connOccs_plain part rest h1 h2 h3 h4 h5 h6]
  | case22 part rest st h1 h2 h3 h4 h5 h6 e hpar ih =>
    simp only [specState]
    rw [connOccs_plain part rest h1 h2 h3 h4 h5 h6]
    have hstep : parse_connection_args (part :: rest) st = .error e := by
      rw [parse_cons, if_neg h1, if_neg h2, if_neg h3, if_neg h4, if_neg h5, if_neg h6]
      simp only [hpar]
    constructor
    · intro s hs
      rw [ih.1 s hs] at hpar
      rw [hstep]
      simp only [Except.error.injEq] at hpar ⊢
      exact hpar.symm
    · intro hall
      rw [ih.2 hall] at hpar
      cases hpar

theorem find?_of_all_false {p : α → Bool} {l : List α} (h : l.all p = false) :
    ∃ x, l.find? (fun y => !p y) = some x ∧ p x = false := by
  induction l with
  | nil => simp at h
  | cons a t ih =>
    rw [List.all_cons] at h
    by_cases hp : p a
    · rw [hp, Bool.true_and] at h
      obtain ⟨x, hx, hpx⟩ := ih h
      exact ⟨x, by simp [List.find?_cons, hp, hx], hpx⟩
    · have hpa : p a = false := by simpa using hp
      exact ⟨a, by simp [List.find?_cons, hpa], hpa⟩

/-! ### Claim C1: last occurrence wins -/
/-- C1 (amended): for every token sequence accepted by the parser, the
effective host and port each equal the value of the last corresponding
occurrence scanned left to right — occurrences being the discrete flags
in both spellings and the `host=`/`port=` fields inside a dbname value,
the latter counting *only when the dbname value contains the substring
`host=`* — with the environment default used and the explicit flag left
false when no occurrence of a kind is present; the token sequence itself
is passed through unchanged. -/
theorem c1_last_occurrence_wins (args : List String) (dh : String) (dp : Int)
    (st : ParseState) (rem : List String)
    (hok : parse_connection_args args ⟨dh, dp, false, false⟩ = .ok (st, rem)) :
    st.host = lastD (hostVals (connOccs args)) dh ∧
    st.hasHost = !(hostVals (connOccs args)).isEmpty ∧
    st.port = lastD (portInts (connOccs args)) dp ∧
    st.hasPort = !(portVals (connOccs args)).isEmpty ∧
    rem = args := by
  have hall : (portVals (connOccs args)).all validInt = true := by
    by_contra hna
    rw [Bool.not_eq_true] at hna
    obtain ⟨s, hs, _⟩ := find?_of_all_false hna
    rw [(parse_spec args ⟨dh, dp, false, false⟩).1 s hs] at hok
    cases hok
  have h2 := hok.symm.trans ((parse_spec args ⟨dh, dp, false, false⟩).2 hall)
  simp only [Except.ok.injEq, Prod.mk.injEq, specState] at h2
  obtain ⟨hst, hrem⟩ := h2
  rw [hst, hrem]
  simp

/-- Witness for C1 at a concrete accepted token sequence mixing discrete
flags (both spellings) and connection-string fields. -/
theorem c1_last_occurrence_wins_witness :
    (⟨"b", 2, true, true⟩ : ParseState).host =
      lastD (hostVals (connOccs ["-h", "a", "--port=1", "-d", "host=b port=2 x=y"]))
        "localhost" ∧
    (⟨"b", 2, true, true⟩ : ParseState).hasHost =
      !(hostVals (connOccs ["-h", "a", "--port=1", "-d", "host=b port=2 x=y"])).isEmpty ∧
    (⟨"b", 2, true, true⟩ : ParseState).port =
      lastD (portInts (connOccs ["-h", "a", "--port=1", "-d", "host=b port=2 x=y"])) 5432 ∧
    (⟨"b", 2, true, true⟩ : ParseState).hasPort =
      !(portVals (connOccs ["-h", "a", "--port=1", "-d", "host=b port=2 x=y"])).isEmpty ∧
    ["-h", "a", "--port=1", "-d", "host=b port=2 x=y"] =
      ["-h", "a", "--port=1", "-d", "host=b port=2 x=y"] :=
  c1_last_occurrence_wins ["-h", "a", "--port=1", "-d", "host=b port=2 x=y"]
    "localhost" 5432 ⟨"b", 2, true, true⟩
    ["-h", "a", "--port=1", "-d", "host=b port=2 x=y"] (by rfl)

/-- C1 as stated fails on the code: a `port=` field inside a dbname value
with no `host=` substring is silently ignored (`-d "port=7777 dbname=x"`
leaves the effective port at the default 5432 with the explicit-port flag
false), where the claim requires effective port 7777. -/
theorem c1_counterexample : ¬ C1OrigProp := by
  intro hAll
  have h := hAll ["-d", "port=7777 dbname=x"] "localhost" 5432
    ⟨"localhost", 5432, false, false⟩ ["-d", "port=7777 dbname=x"] (by rfl)
  exact absurd h (by decide)

/-- C2 as stated fails on the code: Python `int(...)` accepts a signed
value, so `-p -1` parses successfully with effective port `-1`, where the
claim requires a ParseError for any port value that is not a valid
non-negative integer. -/
theorem c2_counterexample : ¬ C2OrigProp := by
  intro hAll
  have h := (hAll ["-p", "-1"] ⟨"localhost", 5432, false, false⟩).1
    ⟨(⟨"localhost", -1, false, true⟩, ["-p", "-1"]), by rfl⟩
  exact absurd h (by decide)

/-- C2 (amended): parsing succeeds exactly when every scanned port value
(discrete flags in both spellings, plus `port=` fields of dbname values
that contain a `host=` substring) is accepted by Python `int(...)` — a
possibly signed decimal integer; on failure the ValueError names the
first offending value, and the interpreter aborts with no tunnel
attempted and the wrapped command never run. -/
theorem c2_port_validation (args : List String) (st : ParseState) :
    ((∃ r, parse_connection_args args st = .ok r) ↔
      (portVals (connOccs args)).all validInt = true) ∧
    (∀ e, parse_connection_args args st = .error e →
      ∃ s, ((portVals (connOccs args)).find? fun x => !validInt x) = some s ∧
        e = intErrMsg s ∧ validInt s = false) ∧
    (∀ e m env run dh dp dsn_alias,
      parse_connection_args args ⟨dh, dp, false, false⟩ = .error e →
        (cliModel m env run args dh dp dsn_alias).tunnelAttempted = false ∧
        (cliModel m env run args dh dp dsn_alias).ranWrapped = false ∧
        (cliModel m env run args dh dp dsn_alias).exitCode = 1) := by
  refine ⟨⟨?_, ?_⟩, ?_, ?_⟩
  · rintro ⟨r, hok⟩
    by_contra hna
    rw [Bool.not_eq_true] at hna
    obtain ⟨s, hs, _⟩ := find?_of_all_false hna
    rw [(parse_spec args st).1 s hs] at hok
    cases hok
  · intro hall
    exact ⟨(specState args st, args), (parse_spec args st).2 hall⟩
  · intro e he
    have hna : (portVals (connOccs args)).all validInt = false := by
      by_contra hh
      rw [Bool.not_eq_false] at hh
      rw [(parse_spec args st).2 hh] at he
      cases he
    obtain ⟨s, hs, hvs⟩ := find?_of_all_false hna
    have := (parse_spec args st).1 s hs
    rw [he] at this
    simp only [Except.error.injEq] at this
    exact ⟨s, hs, this, hvs⟩
  · intro e m env run dh dp dsn_alias he
    simp [cliModel, he]

/-- Witness for C2 at a concrete malformed port value: `-p abc` fails
naming `abc`, and the orchestration attempts no tunnel and never runs
the wrapped command. -/
theorem c2_port_validation_witness :
    (∃ s, ((portVals (connOccs ["-p", "abc"])).find? fun x => !validInt x) = some s ∧
      "invalid literal for int() with base 10: abc" = intErrMsg s ∧
      validInt s = false) ∧
    (cliModel ⟨none, [], []⟩ ⟨true, true, true, 0⟩ (.completed 0)
      ["-p", "abc"] "localhost" 5432 none).tunnelAttempted = false ∧
    (cliModel ⟨none, [], []⟩ ⟨true, true, true, 0⟩ (.completed 0)
      ["-p", "abc"] "localhost" 5432 none).ranWrapped = false :=
  ⟨(c2_port_validation ["-p", "abc"] ⟨"localhost", 5432, false, false⟩).2.1
      "invalid literal for int() with base 10: abc" (by rfl),
    ((c2_port_validation ["-p", "abc"] ⟨"localhost", 5432, false, false⟩).2.2
      "invalid literal for int() with base 10: abc" ⟨none, [], []⟩
      ⟨true, true, true, 0⟩ (.completed 0) "localhost" 5432 none (by rfl)).1,
    ((c2_port_validation ["-p", "abc"] ⟨"localhost", 5432, false, false⟩).2.2
      "invalid literal for int() with base 10: abc" ⟨none, [], []⟩
      ⟨true, true, true, 0⟩ (.completed 0) "localhost" 5432 none (by rfl)).2.1⟩

theorem mk_data (s : String) : String.mk s.data = s := rfl

theorem takeWhile_of_all {p : α → Bool} {l : List α} (h : l.all p = true) :
    l.takeWhile p = l := by
  induction l with
  | nil => rfl
  | cons a t ih =>
    rw [List.all_cons, Bool.and_eq_true] at h
    simp [List.takeWhile_cons, h.1, ih h.2]

theorem dropWhile_of_all {p : α → Bool} {l : List α} (h : l.all p = true) :
    l.dropWhile p = [] := by
  induction l with
  | nil => rfl
  | cons a t ih =>
    rw [List.all_cons, Bool.and_eq_true] at h
    simp [List.dropWhile_cons, h.1, ih h.2]

theorem takeWhile_append_stop {p : α → Bool} {cs : List α} {x : α} (t : List α)
    (hall : cs.all p = true) (hx : p x = false) :
    (cs ++ x :: t).takeWhile p = cs := by
  induction cs with
  | nil => simp [List.takeWhile_cons, hx]
  | cons a as ih =>
    rw [List.all_cons, Bool.and_eq_true] at hall
    simp [List.takeWhile_cons, hall.1, ih hall.2]

theorem dropWhile_append_stop {p : α → Bool} {cs : List α} {x : α} (t : List α)
    (hall : cs.all p = true) (hx : p x = false) :
    (cs ++ x :: t).dropWhile p = x :: t := by
  induction cs with
  | nil => simp [List.dropWhile_cons, hx]
  | cons a as ih =>
    rw [List.all_cons, Bool.and_eq_true] at hall
    simp [List.dropWhile_cons, hall.1, ih hall.2]

theorem splitWsAux_parts (l : List Char) : ∀ acc : List Char, noWs acc = true →
    ∀ p ∈ splitWsAux l acc, p ≠ [] ∧ noWs p = true := by
  induction l with
  | nil =>
    intro acc hacc p hp
    by_cases h : acc.isEmpty
    · simp [splitWsAux, h] at hp
    · simp only [splitWsAux, h, Bool.false_eq_true, if_false, List.mem_singleton] at hp
      subst hp
      rw [List.isEmpty_iff] at h
      constructor
      · simpa using h
      · simpa [noWs] using hacc
  | cons c rest ih =>
    intro acc hacc p hp
    by_cases hc : wsChar c
    · simp only [splitWsAux, hc, if_true, List.mem_append] at hp
      rcases hp with hp | hp
      · by_cases h : acc.isEmpty
        · simp [h] at hp
        · simp only [h, Bool.false_eq_true, if_false, List.mem_singleton] at hp
          subst hp
          rw [List.isEmpty_iff] at h
          exact ⟨by simpa using h, by simpa [noWs] using hacc⟩
      · exact ih [] rfl p hp
    · simp only [splitWsAux, hc, Bool.false_eq_true, if_false] at hp
      refine ih (c :: acc) ?_ p hp
      simp only [noWs, List.all_cons, Bool.and_eq_true]
      exact ⟨by simpa using hc, hacc⟩

theorem splitWs_parts (l : List Char) : ∀ p ∈ splitWs l, p ≠ [] ∧ noWs p = true :=
  splitWsAux_parts l [] rfl

theorem splitWs_single (p : List Char) (hne : p ≠ []) (hnw : noWs p = true) :
    splitWs p = [p] := by
  match p with
  | [] => exact absurd rfl hne
  | c :: cs =>
    simp only [noWs, List.all_cons, Bool.and_eq_true] at hnw
    rw [splitWs_run c cs (by simpa using hnw.1)]
    rw [takeWhile_of_all hnw.2, dropWhile_of_all hnw.2, splitWs_nil]

theorem splitWs_sep (p t : List Char) (hne : p ≠ []) (hnw : noWs p = true) :
    splitWs (p ++ ' ' :: t) = p :: splitWs t := by
  match p with
  | [] => exact absurd rfl hne
  | c :: cs =>
    simp only [noWs, List.all_cons, Bool.and_eq_true] at hnw
    rw [List.cons_append, splitWs_run c (cs ++ ' ' :: t) (by simpa using hnw.1)]
    rw [takeWhile_append_stop t hnw.2 (by decide), dropWhile_append_stop t hnw.2 (by decide)]
    rw [splitWs_ws ' ' t (by decide)]

/-- Splitting a single-space join of non-empty whitespace-free parts
recovers exactly the parts. -/
theorem splitWs_joinChars (parts : List (List Char))
    (hp : ∀ p ∈ parts, p ≠ [] ∧ noWs p = true) :
    splitWs (joinChars parts) = parts := by
  induction parts with
  | nil => rfl
  | cons p rest ih =>
    match rest with
    | [] =>
      have h := hp p (by simp)
      simpa [joinChars] using splitWs_single p h.1 h.2
    | q :: rest2 =>
      have h := hp p (by simp)
      simp only [joinChars]
      rw [splitWs_sep p _ h.1 h.2]
      rw [ih fun r hr => hp r (by simp [hr])]

/-- Splitting: `pySplit` on a single-space join of non-empty whitespace-free
strings recovers exactly the strings. -/
theorem pySplit_joinSpace (parts : List String)
    (hp : ∀ p ∈ parts, p.data ≠ [] ∧ noWs p.data = true) :
    pySplit (joinSpace parts) = parts := by
  simp only [pySplit, joinSpace]
  rw [splitWs_joinChars (parts.map String.data) (by
    intro q hq
    rw [List.mem_map] at hq
    obtain ⟨s, hs, hsq⟩ := hq
    subst hsq
    exact hp s hs)]
  rw [List.map_map]
  rw [show (String.mk ∘ String.data) = id from funext fun s => mk_data s, List.map_id]

theorem pySplit_parts (s : String) :
    ∀ q ∈ pySplit s, q.data ≠ [] ∧ noWs q.data = true := by
  intro q hq
  simp only [pySplit, List.mem_map] at hq
  obtain ⟨p, hpmem, hpq⟩ := hq
  subst hpq
  exact splitWs_parts s.data p hpmem

/-! Digit strings are whitespace-free. -/
theorem natToRevDigits_chars (n : Nat) :
    ∀ c ∈ natToRevDigits n, ∃ d, d < 10 ∧ c = Char.ofNat (48 + d) := by
  induction n using Nat.strong_induction_on with
  | _ n ih =>
    intro c hc
    rw [natToRevDigits_eq] at hc
    by_cases hn : n = 0
    · simp [hn] at hc
    · simp only [hn, if_false, List.mem_cons] at hc
      rcases hc with hc | hc
      · exact ⟨n % 10, Nat.mod_lt n (by omega), hc⟩
      · exact ih (n / 10) (Nat.div_lt_self (by omega) (by omega)) c hc

theorem pyStr_noWs (p : Int) : noWsStr (pyStr p) = true := by
  have hdig : ∀ n : Nat, noWs (natToRevDigits n) = true := by
    intro n
    rw [noWs, List.all_eq_true]
    intro c hc
    obtain ⟨d, hd, hcd⟩ := natToRevDigits_chars n c hc
    subst hcd
    clear hc
    revert hd
    revert d
    decide
  have hnat : ∀ n : Nat, noWsStr (natToStr n) = true := by
    intro n
    by_cases hn : n = 0
    · subst hn; decide
    · simp only [natToStr, hn, if_false, noWsStr]
      show noWs (natToRevDigits n).reverse = true
      rw [noWs, List.all_eq_true]
      intro c hc
      rw [List.mem_reverse] at hc
      have := hdig n
      rw [noWs, List.all_eq_true] at this
      exact this c hc
  match p with
  | .ofNat n => exact hnat n
  | .negSucc m =>
    simp only [pyStr, noWsStr]
    have hd : ("-" ++ natToStr (m + 1)).data = '-' :: (natToStr (m + 1)).data := rfl
    rw [hd, noWs, List.all_cons, Bool.and_eq_true]
    have := hnat (m + 1)
    rw [noWsStr, noWs] at this
    exact ⟨by decide, this⟩

/-! ### Claim C5: connection-string field rewriting -/
/-- A `replField`-rewritten field is still non-empty and
whitespace-free, provided the replacement host is whitespace-free. -/
theorem replField_part_ok (h : String) (p : Int) (part : String)
    (hh : noWsStr h = true) (hpart : part.data ≠ [] ∧ noWs part.data = true) :
    (replField h p part).data ≠ [] ∧ noWs (replField h p part).data = true := by
  unfold replField
  by_cases h1 : strStarts "host=" part
  · simp only [h1, if_true]
    have hd : ("host=" ++ h).data = "host=".data ++ h.data := rfl
    rw [hd]
    constructor
    · simp
    · rw [noWs, List.all_append]
      rw [noWsStr] at hh
      simp [noWs] at hh ⊢
      exact ⟨by decide, fun c hc => hh c hc⟩
  · by_cases h2 : strStarts "port=" part
    · simp only [h1, Bool.false_eq_true, if_false, h2, if_true]
      have hd : ("port=" ++ pyStr p).data = "port=".data ++ (pyStr p).data := rfl
      rw [hd]
      constructor
      · simp
      · rw [noWs, List.all_append]
        have := pyStr_noWs p
        rw [noWsStr] at this
        simp [noWs] at this ⊢
        exact ⟨by decide, fun c hc => this c hc⟩
    · simpa [h1, h2] using hpart

/-- Re-splitting a rewritten dbname value gives exactly the original
fields mapped through the replacement (order preserved, separators
normalized to single spaces). -/
theorem pySplit_rewriteDbname (v h : String) (p : Int) (hh : noWsStr h = true) :
    pySplit (rewriteDbname v h p) = (pySplit v).map (replField h p) := by
  unfold rewriteDbname
  apply pySplit_joinSpace
  intro q hq
  rw [List.mem_map] at hq
  obtain ⟨part, hmem, hpq⟩ := hq
  subst hpq
  exact replField_part_ok h p part hh (pySplit_parts v part hmem)

/-- C5 as stated fails on the code: `dbname.split()` followed by
`" ".join(...)` collapses whitespace runs, so the two-space separator in
`"host=a  dbname=m"` comes back as a single space. -/
theorem c5_counterexample : ¬ C5OrigProp := by
  intro hAll
  have h := hAll "host=a  dbname=m" "127.0.0.1" 55123 (by decide)
  exact absurd h (by decide)

/-- C5 (amended): for every dbname connection-string value being
rewritten with a whitespace-free replacement host, the rewritten value's
field list is exactly the original field list with only the `host=` and
`port=` field values replaced by the local endpoint, every other field
unchanged and in original order; separators are normalized to single
spaces.  In particular Scenario B holds verbatim. -/
theorem c5_dbname_field_rewriting (v h : String) (p : Int)
    (hh : noWsStr h = true) :
    pySplit (rewriteDbname v h p) = (pySplit v).map (replField h p) ∧
    rewriteDbname "host=db.example.com port=5433 dbname=mydb" "127.0.0.1" 55123 =
      "host=127.0.0.1 port=55123 dbname=mydb" :=
  ⟨pySplit_rewriteDbname v h p hh, by decide⟩

/-- Witness for C5 at the Scenario B value. -/
theorem c5_dbname_field_rewriting_witness :
    pySplit (rewriteDbname "host=db.example.com port=5433 dbname=mydb" "127.0.0.1" 55123) =
      (pySplit "host=db.example.com port=5433 dbname=mydb").map (replField "127.0.0.1" 55123) :=
  (c5_dbname_field_rewriting "host=db.example.com port=5433 dbname=mydb"
    "127.0.0.1" 55123 (by decide)).1

/-- C6 as stated fails on the code: `["--dbname", "mydb"]` contains no
host or port occurrence of any kind, yet rewriting replaces the
`--dbname` token by `-d`, altering a token besides the two appended
pairs. -/
theorem c6_counterexample : ¬ C6OrigProp := by
  intro hAll
  have h := hAll ["--dbname", "mydb"] "localhost" "127.0.0.1" 5432 9999
    ⟨"localhost", 5432, false, false⟩ ["--dbname", "mydb"] (by rfl) (by decide)
  exact absurd h (by decide)

theorem untouchedArgs_cons (a : String) (rest : List String) :
    untouchedArgs (a :: rest) =
      (if a = "-h" ∨ a = "--host" ∨ a = "-p" ∨ a = "--port" ∨ a = "--dbname" then false
      else if strStarts "--host=" a ∨ strStarts "--port=" a then false
      else if a = "-d" then
        match rest with
        | v :: rest2 => !containsSubstr v "host=" && untouchedArgs rest2
        | [] => true
      else if strStarts "--dbname=" a then
        !containsSubstr (dropPfx a 9) "host=" && untouchedArgs rest
      else untouchedArgs rest) := by
  rw [untouchedArgs.eq_def]

theorem untouched_connOccs (args : List String) (hu : untouchedArgs args = true) :
    connOccs args = [] := by
  induction args using untouchedArgs.induct with
  | case1 => rfl
  | case2 a rest h1 =>
    rw [untouchedArgs_cons, if_pos h1] at hu
    cases hu
  | case3 a rest h1 h2 =>
    rw [untouchedArgs_cons, if_neg h1, if_pos h2] at hu
    cases hu
  | case4 v rest2 h1 h2 ih =>
    rw [untouchedArgs_cons, if_neg h1, if_neg h2, if_pos rfl] at hu
    simp only [Bool.and_eq_true, Bool.not_eq_true'] at hu
    obtain ⟨hg, hrest⟩ := hu
    rw [connOccs_dFlag "-d" v rest2 (by decide) (by decide) (by decide)
      (by decide) (by decide)]
    rw [ih hrest]
    simp [dbOccs, hg]
  | case5 h1 h2 =>
    rw [connOccs_dFlag_nil "-d" (by decide) (by decide) (by decide)
      (by decide) (by decide)]
  | case6 a rest h1 h2 h3 h4 ih =>
    push_neg at h1 h2
    obtain ⟨hn1, hn2, hn3, hn4, hn5⟩ := h1
    obtain ⟨hp1, hp2⟩ := h2
    rw [untouchedArgs_cons] at hu
    rw [if_neg (by simp [hn1, hn2, hn3, hn4, hn5]),
      if_neg (by simp [hp1, hp2]), if_neg h3, if_pos h4] at hu
    simp only [Bool.and_eq_true, Bool.not_eq_true'] at hu
    obtain ⟨hg, hrest⟩ := hu
    rw [connOccs_dEq a rest (by simp [hn1, hn2]) (by simpa using hp1)
      (by simp [hn3, hn4]) (by simpa using hp2) (by simp [h3, hn5]) h4]
    rw [ih hrest]
    simp [dbOccs, hg]
  | case7 a rest h1 h2 h3 h4 ih =>
    push_neg at h1 h2
    obtain ⟨hn1, hn2, hn3, hn4, hn5⟩ := h1
    obtain ⟨hp1, hp2⟩ := h2
    rw [untouchedArgs_cons] at hu
    rw [if_neg (by simp [hn1, hn2, hn3, hn4, hn5]),
      if_neg (by simp [hp1, hp2]), if_neg h3, if_neg h4] at hu
    rw [connOccs_plain a rest (by simp [hn1, hn2]) (by simpa using hp1)
      (by simp [hn3, hn4]) (by simpa using hp2) (by simp [h3, hn5]) h4]
    exact ih hu

theorem untouched_buildCore (args : List String) (th : String) (tp : Int)
    (hu : untouchedArgs args = true) :
    buildCore args th tp = args := by
  induction args using untouchedArgs.induct with
  | case1 => rfl
  | case2 a rest h1 =>
    rw [untouchedArgs_cons, if_pos h1] at hu
    cases hu
  | case3 a rest h1 h2 =>
    rw [untouchedArgs_cons, if_neg h1, if_pos h2] at hu
    cases hu
  | case4 v rest2 h1 h2 ih =>
    rw [untouchedArgs_cons, if_neg h1, if_neg h2, if_pos rfl] at hu
    simp only [Bool.and_eq_true, Bool.not_eq_true'] at hu
    obtain ⟨hg, hrest⟩ := hu
    rw [buildCore_cons, if_neg (by decide), if_neg (by decide),
      if_neg (by decide), if_neg (by decide),
      if_pos (by simp : "-d" = "-d" ∨ "-d" = "--dbname")]
    simp only [hg, Bool.false_eq_true, if_false]
    rw [ih hrest]
  | case5 h1 h2 =>
    rw [buildCore_cons, if_neg (by decide), if_neg (by decide),
      if_neg (by decide), if_neg (by decide),
      if_pos (by simp : "-d" = "-d" ∨ "-d" = "--dbname")]
    rfl
  | case6 a rest h1 h2 h3 h4 ih =>
    push_neg at h1 h2
    obtain ⟨hn1, hn2, hn3, hn4, hn5⟩ := h1
    obtain ⟨hp1, hp2⟩ := h2
    rw [untouchedArgs_cons] at hu
    rw [if_neg (by simp [hn1, hn2, hn3, hn4, hn5]),
      if_neg (by simp [hp1, hp2]), if_neg h3, if_pos h4] at hu
    simp only [Bool.and_eq_true, Bool.not_eq_true'] at hu
    obtain ⟨hg, hrest⟩ := hu
    rw [buildCore_cons, if_neg (by simp [hn1, hn2]),
      if_neg (by simpa using hp1), if_neg (by simp [hn3, hn4]),
      if_neg (by simpa using hp2), if_neg (by simp [h3, hn5]), if_pos h4]
    rw [hg]
    simp only [Bool.false_eq_true, if_false]
    rw [ih hrest]
  | case7 a rest h1 h2 h3 h4 ih =>
    push_neg at h1 h2
    obtain ⟨hn1, hn2, hn3, hn4, hn5⟩ := h1
    obtain ⟨hp1, hp2⟩ := h2
    rw [untouchedArgs_cons] at hu
    rw [if_neg (by simp [hn1, hn2, hn3, hn4, hn5]),
      if_neg (by simp [hp1, hp2]), if_neg h3, if_neg h4] at hu
    rw [buildCore_cons, if_neg (by simp [hn1, hn2]),
      if_neg (by simpa using hp1), if_neg (by simp [hn3, hn4]),
      if_neg (by simpa using hp2), if_neg (by simp [h3, hn5]), if_neg h4]
    rw [ih hu]

/-- C6 (amended): for every input token sequence in which every token
passes through the scanner untouched — no discrete host/port flag in
either spelling, no space-separated `--dbname` token, and no dbname value
containing the substring `host=` — parsing leaves the environment
defaults with both explicit flags false, and rewriting appends exactly
one `-h host` pair and one `-p port` pair at the end, altering no other
token; in particular for the empty token sequence the result is exactly
the two appended pairs. -/
theorem c6_append_only (args : List String) (dh th : String) (dp tp : Int)
    (hu : untouchedArgs args = true) :
    parse_connection_args args ⟨dh, dp, false, false⟩ =
      .ok (⟨dh, dp, false, false⟩, args) ∧
    build_tunneled_args args th tp dh dp false false =
      args ++ ["-h", th, "-p", pyStr tp] := by
  have hocc := untouched_connOccs args hu
  constructor
  · have hall : (portVals (connOccs args)).all validInt = true := by
      rw [hocc]; rfl
    have h2 := (parse_spec args ⟨dh, dp, false, false⟩).2 hall
    rw [h2]
    simp [specState, hocc, lastD, portInts]
  · unfold build_tunneled_args
    rw [untouched_buildCore args th tp hu]
    simp

/-- Witness for C6 at a concrete untouched token sequence (and, via the
same instantiation shape, Scenario C's empty sequence). -/
theorem c6_append_only_witness :
    parse_connection_args ["-f", "out.sql", "-d", "mydb"]
        ⟨"localhost", 5432, false, false⟩ =
      .ok (⟨"localhost", 5432, false, false⟩, ["-f", "out.sql", "-d", "mydb"]) ∧
    build_tunneled_args ["-f", "out.sql", "-d", "mydb"] "127.0.0.1" 9999
        "localhost" 5432 false false =
      ["-f", "out.sql", "-d", "mydb"] ++ ["-h", "127.0.0.1", "-p", pyStr 9999] :=
  c6_append_only ["-f", "out.sql", "-d", "mydb"] "localhost" "127.0.0.1"
    5432 9999 (by decide)

/-! ### Round trip of `str` and `int` (claim C7) -/
theorem digitsVal_append_digit (xs : List Char) (c : Char) (hc : ¬c = '_') :
    digitsVal (xs ++ [c]) = digitsVal xs * 10 + (c.toNat - 48) := by
  simp [digitsVal, List.foldl_append, hc]

theorem natToRevDigits_digitChars (n : Nat) :
    ∀ c ∈ natToRevDigits n, c.isDigit = true ∧ ¬c = '_' := by
  intro c hc
  obtain ⟨d, hd, hcd⟩ := natToRevDigits_chars n c hc
  subst hcd
  revert hd
  clear hc
  revert d
  decide

theorem digitsVal_natToRevDigits (n : Nat) :
    digitsVal (natToRevDigits n).reverse = n := by
  induction n using Nat.strong_induction_on with
  | _ n ih =>
    rw [natToRevDigits_eq]
    by_cases hn : n = 0
    · simp [hn, digitsVal]
    · simp only [hn, if_false, List.reverse_cons]
      rw [digitsVal_append_digit _ _ (by
        have : ∀ d, d < 10 → ¬Char.ofNat (48 + d) = '_' := by decide
        exact this (n % 10) (Nat.mod_lt n (by omega)))]
      rw [ih (n / 10) (Nat.div_lt_self (by omega) (by omega))]
      have htn : ∀ d, d < 10 → (Char.ofNat (48 + d)).toNat - 48 = d := by decide
      rw [htn (n % 10) (Nat.mod_lt n (by omega))]
      omega

theorem digitsTailOk_cons (c : Char) (rest : List Char) :
    digitsTailOk (c :: rest) =
      if c = '_' then
        match rest with
        | d :: rest2 => d.isDigit && digitsTailOk rest2
        | [] => false
      else c.isDigit && digitsTailOk rest := by
  rw [digitsTailOk.eq_def]

theorem digitsTailOk_of_all (l : List Char)
    (h : ∀ c ∈ l, c.isDigit = true ∧ ¬c = '_') : digitsTailOk l = true := by
  induction l with
  | nil => rfl
  | cons c rest ih =>
    have hc := h c (by simp)
    have hrest := ih fun d hd => h d (by simp [hd])
    rw [digitsTailOk_cons, if_neg hc.2]
    simp [hc.1, hrest]

theorem natToStr_digits (n : Nat) :
    (natToStr n).data ≠ [] ∧ ∀ c ∈ (natToStr n).data, c.isDigit = true ∧ ¬c = '_' := by
  by_cases hn : n = 0
  · subst hn
    constructor
    · decide
    · decide
  · simp only [natToStr, hn, if_false]
    constructor
    · have := natToRevDigits_eq n
      rw [if_neg hn] at this
      show (natToRevDigits n).reverse ≠ []
      rw [this]
      simp
    · show ∀ c ∈ (natToRevDigits n).reverse, _
      intro c hc
      rw [List.mem_reverse] at hc
      exact natToRevDigits_digitChars n c hc

theorem digitsOk_of_all (l : List Char) (hne : l ≠ [])
    (h : ∀ c ∈ l, c.isDigit = true ∧ ¬c = '_') : digitsOk l = true := by
  match l with
  | [] => exact absurd rfl hne
  | c :: rest =>
    have h1 := (h c (by simp)).1
    have h2 := digitsTailOk_of_all rest fun d hd => h d (by simp [hd])
    simp [digitsOk, h1, h2]

theorem digitsVal_natToStr (m : Nat) : digitsVal (natToStr m).data = m := by
  by_cases hm : m = 0
  · subst hm
    decide
  · simp only [natToStr, hm, if_false]
    exact digitsVal_natToRevDigits m

theorem dropWhile_ws_of_noWs (l : List Char) (h : noWs l = true) :
    l.dropWhile wsChar = l := by
  match l with
  | [] => rfl
  | c :: rest =>
    rw [noWs, List.all_cons, Bool.and_eq_true] at h
    simp [List.dropWhile_cons, show wsChar c = false by simpa using h.1]

theorem strip_of_noWs (l : List Char) (h : noWs l = true) :
    ((l.dropWhile wsChar).reverse.dropWhile wsChar).reverse = l := by
  rw [dropWhile_ws_of_noWs l h]
  rw [dropWhile_ws_of_noWs l.reverse (by
    rw [noWs, List.all_reverse]
    exact h)]
  simp

/-- Round trip `int(str(i)) == i`: Python `int` recovers any integer printed by
Python `str`. -/
theorem pyInt_pyStr (n : Int) : pyInt (pyStr n) = some n := by
  match n with
  | .ofNat m =>
    show pyInt (natToStr m) = some (m : Int)
    rw [pyInt]
    rw [strip_of_noWs (natToStr m).data
      (show noWs (natToStr m).data = true from pyStr_noWs (.ofNat m))]
    obtain ⟨hne, hdig⟩ := natToStr_digits m
    have hval := digitsVal_natToStr m
    match hd : (natToStr m).data with
    | [] => exact absurd hd hne
    | c :: rest =>
      have hc := hdig c (by rw [hd]; simp)
      have hcm : ¬c = '-' := by
        intro hcc
        subst hcc
        exact absurd hc.1 (by decide)
      have hcp : ¬c = '+' := by
        intro hcc
        subst hcc
        exact absurd hc.1 (by decide)
      have hok : digitsOk (c :: rest) = true := by
        rw [← hd]
        exact digitsOk_of_all _ hne hdig
      rw [pyIntCore, if_neg hcm, if_neg hcp, if_pos hok]
      rw [← hd, hval]
  | .negSucc m =>
    show pyInt ("-" ++ natToStr (m + 1)) = some (Int.negSucc m)
    rw [pyInt]
    rw [strip_of_noWs ("-" ++ natToStr (m + 1)).data
      (show noWs ("-" ++ natToStr (m + 1)).data = true from pyStr_noWs (.negSucc m))]
    have hdata : ("-" ++ natToStr (m + 1)).data = '-' :: (natToStr (m + 1)).data := rfl
    rw [hdata]
    obtain ⟨hne, hdig⟩ := natToStr_digits (m + 1)
    have hok : digitsOk (natToStr (m + 1)).data = true := digitsOk_of_all _ hne hdig
    rw [pyIntCore, if_pos rfl, if_pos hok]
    rw [digitsVal_natToStr (m + 1)]
    rfl

theorem validInt_pyStr (n : Int) : validInt (pyStr n) = true := by
  rw [validInt, pyInt_pyStr]
  rfl

/-! `str(i)` never looks like a connection flag. -/
theorem pyStr_data_shape (p : Int) :
    (∃ c cs, (pyStr p).data = c :: cs ∧ c.isDigit = true) ∨
    (∃ c cs, (pyStr p).data = '-' :: c :: cs ∧ c.isDigit = true) := by
  match p with
  | .ofNat m =>
    left
    obtain ⟨hne, hdig⟩ := natToStr_digits m
    match hd : (natToStr m).data with
    | [] => exact absurd hd hne
    | c :: cs => exact ⟨c, cs, rfl, (hdig c (by rw [hd]; simp)).1⟩
  | .negSucc m =>
    right
    obtain ⟨hne, hdig⟩ := natToStr_digits (m + 1)
    match hd : (natToStr (m + 1)).data with
    | [] => exact absurd hd hne
    | c :: cs =>
      refine ⟨c, cs, ?_, (hdig c (by rw [hd]; simp)).1⟩
      show ("-" ++ natToStr (m + 1)).data = _
      rw [show ("-" ++ natToStr (m + 1)).data = '-' :: (natToStr (m + 1)).data from rfl, hd]

theorem pyStr_no_ddash (p : Int) (l : List Char) :
    lpre ('-' :: '-' :: l) (pyStr p).data = false := by
  rcases pyStr_data_shape p with ⟨c, cs, hd, hdig⟩ | ⟨c, cs, hd, hdig⟩
  · rw [hd]
    simp only [lpre, Bool.and_eq_false_iff]
    left
    simp only [decide_eq_false_iff_not]
    intro hcc
    subst hcc
    exact absurd hdig (by decide)
  · rw [hd]
    simp only [lpre]
    have : (decide ('-' = c)) = false := by
      simp only [decide_eq_false_iff_not]
      intro hcc
      subst hcc
      exact absurd hdig (by decide)
    simp [this]

/-! ### Substring decomposition (claim C7) -/
theorem lpre_iff (p l : List Char) : lpre p l = true ↔ ∃ s, l = p ++ s := by
  induction p generalizing l with
  | nil => simp [lpre]
  | cons a as ih =>
    match l with
    | [] =>
      simp only [lpre, List.append_eq]
      constructor
      · intro h; cases h
      · rintro ⟨s, hs⟩; cases hs
    | b :: bs =>
      simp only [lpre, Bool.and_eq_true, decide_eq_true_eq, List.cons_append]
      rw [ih bs]
      constructor
      · rintro ⟨hab, s, hs⟩
        exact ⟨s, by rw [hab, hs]⟩
      · rintro ⟨s, hs⟩
        injection hs with h1 h2
        exact ⟨h1.symm, s, h2⟩

theorem isSubstr_iff (pat l : List Char) :
    isSubstr pat l = true ↔ ∃ pre suf, l = pre ++ pat ++ suf := by
  induction l with
  | nil =>
    simp only [isSubstr, List.isEmpty_iff]
    constructor
    · intro h
      exact ⟨[], [], by simp [h]⟩
    · rintro ⟨pre, suf, hs⟩
      match pre, pat, suf with
      | [], [], [] => rfl
  | cons c rest ih =>
    simp only [isSubstr, Bool.or_eq_true, lpre_iff, ih]
    constructor
    · rintro (⟨s, hs⟩ | ⟨pre, suf, hs⟩)
      · exact ⟨[], s, by simp [hs]⟩
      · exact ⟨c :: pre, suf, by simp [hs]⟩
    · rintro ⟨pre, suf, hs⟩
      match pre with
      | [] =>
        left
        exact ⟨suf, by simpa using hs⟩
      | d :: pre2 =>
        right
        injection hs with h1 h2
        exact ⟨pre2, suf, h2⟩

theorem isSubstr_mem {pat l : List Char} (h : isSubstr pat l = true) :
    ∀ c ∈ pat, c ∈ l := by
  rw [isSubstr_iff] at h
  obtain ⟨pre, suf, hs⟩ := h
  intro c hc
  rw [hs]
  simp [hc]

theorem joinChars_decomp (parts : List (List Char)) (p : List Char)
    (hp : p ∈ parts) : ∃ A B, joinChars parts = A ++ p ++ B := by
  induction parts with
  | nil => cases hp
  | cons q rest ih =>
    match rest with
    | [] =>
      rw [List.mem_singleton] at hp
      exact ⟨[], [], by simp [joinChars, hp]⟩
    | r :: rest2 =>
      rcases List.mem_cons.mp hp with hq | hmem
      · exact ⟨[], ' ' :: joinChars (r :: rest2), by simp [joinChars, hq]⟩
      · obtain ⟨A, B, hAB⟩ := ih hmem
        refine ⟨q ++ ' ' :: A, B, ?_⟩
        simp [joinChars, hAB]

/-- A substring occurring in some part occurs in the single-space join. -/
theorem isSubstr_joinSpace (parts : List String) (part : String) (pat : List Char)
    (hmem : part ∈ parts) (hsub : isSubstr pat part.data = true) :
    isSubstr pat (joinSpace parts).data = true := by
  obtain ⟨A, B, hAB⟩ := joinChars_decomp (parts.map String.data) part.data
    (List.mem_map_of_mem String.data hmem)
  rw [isSubstr_iff] at hsub
  obtain ⟨a, b, hab⟩ := hsub
  show isSubstr pat (joinChars (parts.map String.data)) = true
  rw [hAB, hab, isSubstr_iff]
  exact ⟨A ++ a, b ++ B, by simp⟩

theorem dropWhile_head {p : α → Bool} {l : List α} {x : α} {xs : List α}
    (h : l.dropWhile p = x :: xs) : p x = false := by
  induction l with
  | nil => cases h
  | cons a t ih =>
    rw [List.dropWhile_cons] at h
    by_cases hp : p a
    · rw [if_pos hp] at h
      exact ih h
    · rw [if_neg hp] at h
      injection h with h1 _
      subst h1
      simpa using hp

theorem lpre_confined (B : List Char)
    (hB : B = [] ∨ ∃ b bs, B = b :: bs ∧ wsChar b = true) :
    ∀ p A : List Char, lpre p (A ++ B) = true → noWs p = true → noWs A = true →
      lpre p A = true := by
  intro p
  induction p with
  | nil =>
    intro A _ _ _
    rfl
  | cons c cs ih =>
    intro A hl hp hA
    match A with
    | [] =>
      rcases hB with hBe | ⟨b, bs, hBeq, hws⟩
      · subst hBe
        simp [lpre] at hl
      · subst hBeq
        simp only [List.nil_append, lpre, Bool.and_eq_true, decide_eq_true_eq] at hl
        rw [noWs, List.all_cons, Bool.and_eq_true] at hp
        rw [hl.1, hws] at hp
        simp at hp
    | a :: A2 =>
      simp only [List.cons_append, lpre, Bool.and_eq_true] at hl ⊢
      rw [noWs, List.all_cons, Bool.and_eq_true] at hp hA
      exact ⟨hl.1, ih A2 hl.2 hp.2 hA.2⟩

/-- A whitespace-free substring occurring across a non-whitespace block
followed by a whitespace boundary lies in one side. -/
theorem isSubstr_boundary (B : List Char)
    (hB : B = [] ∨ ∃ b bs, B = b :: bs ∧ wsChar b = true)
    (pat : List Char) (hpne : pat ≠ []) (hpw : noWs pat = true) :
    ∀ A : List Char, noWs A = true → isSubstr pat (A ++ B) = true →
      isSubstr pat A = true ∨ isSubstr pat B = true := by
  intro A
  induction A with
  | nil =>
    intro _ h
    right
    simpa using h
  | cons a A2 ih =>
    intro hA h
    rw [noWs, List.all_cons, Bool.and_eq_true] at hA
    simp only [List.cons_append, isSubstr, Bool.or_eq_true] at h
    rcases h with h | h
    · left
      have hfit := lpre_confined B hB pat (a :: A2) (by simpa using h) hpw (by
        rw [noWs, List.all_cons, Bool.and_eq_true]
        exact hA)
      rw [isSubstr]
      simp [hfit]
    · rcases ih hA.2 h with h2 | h2
      · left
        rw [isSubstr]
        simp [h2]
      · right
        exact h2

/-- A whitespace-free substring of a string occurs inside one of its
whitespace-split parts. -/
theorem isSubstr_splitWs (pat : List Char) (hpne : pat ≠ []) (hpw : noWs pat = true) :
    ∀ (n : Nat) (l : List Char), l.length ≤ n → isSubstr pat l = true →
      ∃ part ∈ splitWs l, isSubstr pat part = true := by
  intro n
  induction n with
  | zero =>
    intro l hlen hsub
    match l with
    | [] =>
      rw [isSubstr, List.isEmpty_iff] at hsub
      exact absurd hsub hpne
  | succ n ihn =>
    intro l hlen hsub
    match l with
    | [] =>
      rw [isSubstr, List.isEmpty_iff] at hsub
      exact absurd hsub hpne
    | c :: rest =>
      simp only [List.length_cons, Nat.succ_le_succ_iff] at hlen
      by_cases hc : wsChar c
      · rw [splitWs_ws c rest hc]
        have hrest : isSubstr pat rest = true := by
          simp only [isSubstr, Bool.or_eq_true] at hsub
          rcases hsub with h | h
          · exfalso
            match pat, hpne with
            | p₀ :: ps, _ =>
              simp only [lpre, Bool.and_eq_true, decide_eq_true_eq] at h
              rw [noWs, List.all_cons, Bool.and_eq_true] at hpw
              rw [h.1, hc] at hpw
              simp at hpw
          · exact h
        exact ihn rest hlen hrest
      · rw [splitWs_run c rest (Bool.eq_false_iff.mpr hc)]
        have hdecomp : c :: rest =
            (c :: rest.takeWhile fun d => !wsChar d) ++
              rest.dropWhile (fun d => !wsChar d) := by
          rw [List.cons_append, List.takeWhile_append_dropWhile]
        have hbd : rest.dropWhile (fun d => !wsChar d) = [] ∨
            ∃ b bs, rest.dropWhile (fun d => !wsChar d) = b :: bs ∧ wsChar b = true := by
          match hdr : rest.dropWhile (fun d => !wsChar d) with
          | [] => exact Or.inl rfl
          | b :: bs =>
            refine Or.inr ⟨b, bs, rfl, ?_⟩
            have := dropWhile_head hdr
            simpa using this
        have hfield : noWs (c :: rest.takeWhile fun d => !wsChar d) = true := by
          rw [noWs, List.all_cons, Bool.and_eq_true]
          refine ⟨by simpa using hc, ?_⟩
          rw [List.all_eq_true]
          intro x hx
          have := List.mem_takeWhile_imp hx
          simpa using this
        rw [hdecomp] at hsub
        rcases isSubstr_boundary _ hbd pat hpne hpw _ hfield hsub with h | h
        · exact ⟨_, by simp, h⟩
        · have hlen2 : (rest.dropWhile fun d => !wsChar d).length ≤ n := by
            have := length_dropWhile_le (fun d => !wsChar d) rest
            omega
          obtain ⟨part, hmem, hps⟩ := ihn _ hlen2 h
          exact ⟨part, by simp [hmem], hps⟩

/-! Characters accepted by `int(...)`. -/
theorem digitsTailOk_mem (l : List Char) :
    digitsTailOk l = true → ∀ c ∈ l, c.isDigit = true ∨ c = '_' := by
  induction l using digitsTailOk.induct with
  | case1 =>
    intro _ c hc
    cases hc
  | case2 d rest2 ih =>
    intro h c hc
    rw [digitsTailOk_cons, if_pos rfl] at h
    change (d.isDigit && digitsTailOk rest2) = true at h
    simp only [Bool.and_eq_true] at h
    rcases List.mem_cons.mp hc with h1 | h1
    · right
      exact h1
    · rcases List.mem_cons.mp h1 with h2 | h2
      · left
        rw [h2]
        exact h.1
      · exact ih h.2 c h2
  | case3 =>
    intro h _ _
    rw [digitsTailOk_cons, if_pos rfl] at h
    exact Bool.noConfusion h
  | case4 c0 rest hne ih =>
    intro h c hc
    rw [digitsTailOk_cons, if_neg hne] at h
    simp only [Bool.and_eq_true] at h
    rcases List.mem_cons.mp hc with h1 | h1
    · left
      rw [h1]
      exact h.1
    · exact ih h.2 c h1

theorem pyIntCore_mem (t : List Char) (n : Int) (h : pyIntCore t = some n) :
    ∀ c ∈ t, c = '-' ∨ c = '+' ∨ c.isDigit = true ∨ c = '_' := by
  intro c hc
  match t, hc with
  | c0 :: rest, hc =>
    rw [pyIntCore] at h
    by_cases h1 : c0 = '-'
    · rw [if_pos h1] at h
      have hok : digitsOk rest = true := by
        by_contra hno
        rw [Bool.not_eq_true] at hno
        rw [hno] at h
        cases h
      rcases List.mem_cons.mp hc with h2 | h2
      · left
        rw [h2, h1]
      · match rest, h2, hok with
        | d :: rest2, h2, hok =>
          rw [digitsOk, Bool.and_eq_true] at hok
          rcases List.mem_cons.mp h2 with h3 | h3
          · subst h3
            right; right; left
            exact hok.1
          · rcases digitsTailOk_mem rest2 hok.2 c h3 with h4 | h4
            · right; right; left; exact h4
            · right; right; right; exact h4
    · rw [if_neg h1] at h
      by_cases h2 : c0 = '+'
      · rw [if_pos h2] at h
        have hok : digitsOk rest = true := by
          by_contra hno
          rw [Bool.not_eq_true] at hno
          rw [hno] at h
          cases h
        rcases List.mem_cons.mp hc with h3 | h3
        · right; left
          rw [h3, h2]
        · match rest, h3, hok with
          | d :: rest2, h3, hok =>
            rw [digitsOk, Bool.and_eq_true] at hok
            rcases List.mem_cons.mp h3 with h4 | h4
            · subst h4
              right; right; left
              exact hok.1
            · rcases digitsTailOk_mem rest2 hok.2 c h4 with h5 | h5
              · right; right; left; exact h5
              · right; right; right; exact h5
      · rw [if_neg h2] at h
        have hok : digitsOk (c0 :: rest) = true := by
          by_contra hno
          rw [Bool.not_eq_true] at hno
          rw [hno] at h
          cases h
        rw [digitsOk, Bool.and_eq_true] at hok
        rcases List.mem_cons.mp hc with h3 | h3
        · subst h3
          right; right; left
          exact hok.1
        · rcases digitsTailOk_mem rest hok.2 c h3 with h4 | h4
          · right; right; left; exact h4
          · right; right; right; exact h4

theorem validInt_chars (w : String) (hv : validInt w = true) :
    ∀ c ∈ w.data, wsChar c = true ∨ c = '-' ∨ c = '+' ∨ c.isDigit = true ∨ c = '_' := by
  rw [validInt, pyInt] at hv
  intro c hc
  obtain ⟨n, hn⟩ := Option.isSome_iff_exists.mp hv
  have h1 : w.data = w.data.takeWhile wsChar ++ w.data.dropWhile wsChar :=
    (List.takeWhile_append_dropWhile wsChar w.data).symm
  rw [h1, List.mem_append] at hc
  rcases hc with hc | hc
  · left
    exact List.mem_takeWhile_imp hc
  · have h2 : w.data.dropWhile wsChar =
        ((w.data.dropWhile wsChar).reverse.dropWhile wsChar).reverse ++
          ((w.data.dropWhile wsChar).reverse.takeWhile wsChar).reverse := by
      rw [← List.reverse_append, List.takeWhile_append_dropWhile, List.reverse_reverse]
    rw [h2, List.mem_append] at hc
    rcases hc with hc | hc
    · rcases pyIntCore_mem _ n hn c hc with h3 | h3 | h3 | h3
      · right; left; exact h3
      · right; right; left; exact h3
      · right; right; right; left; exact h3
      · right; right; right; right; exact h3
    · left
      rw [List.mem_reverse] at hc
      exact List.mem_takeWhile_imp hc

/-- A string accepted by `int(...)` cannot contain the substring
`host=`. -/
theorem validInt_no_hostEq (w : String) (hv : validInt w = true) :
    isSubstr "host=".data w.data = false := by
  by_contra h
  rw [Bool.not_eq_false] at h
  have hmem := isSubstr_mem h 'h' (by decide)
  rcases validInt_chars w hv 'h' hmem with h1 | h1 | h1 | h1 | h1 <;>
    exact absurd h1 (by decide)

theorem coreTailMode_cons (arg : String) (rest : List String) :
    coreTailMode (arg :: rest) =
      (if arg = "-h" ∨ arg = "--host" then
        match rest with
        | _ :: rest2 => coreTailMode rest2
        | [] => .dangHost
      else if strStarts "--host=" arg then coreTailMode rest
      else if arg = "-p" ∨ arg = "--port" then
        match rest with
        | _ :: rest2 => coreTailMode rest2
        | [] => .dangPort
      else if strStarts "--port=" arg then coreTailMode rest
      else if arg = "-d" ∨ arg = "--dbname" then
        match rest with
        | _ :: rest2 => coreTailMode rest2
        | [] => .dangD
      else if strStarts "--dbname=" arg then coreTailMode rest
      else coreTailMode rest) := by
  rw [coreTailMode.eq_def]

/-! Prefix mismatches between the distinct flag spellings. -/
theorem strStarts_hostKey_portKey (x : String) :
    strStarts "host=" ("port=" ++ x) = false := rfl

theorem strStarts_hostEq_portEq (x : String) :
    strStarts "--host=" ("--port=" ++ x) = false := rfl

theorem strStarts_hostEq_dbEq (x : String) :
    strStarts "--host=" ("--dbname=" ++ x) = false := rfl

theorem strStarts_portEq_dbEq (x : String) :
    strStarts "--port=" ("--dbname=" ++ x) = false := rfl

/-- The scan `partOcc` commutes with `replField`: the rewritten field carries
exactly the substituted occurrence. -/
theorem partOcc_replField (th : String) (tp : Int) (part : String) :
    partOcc (replField th tp part) = (partOcc part).map (substOcc th tp) := by
  rw [replField]
  by_cases h1 : strStarts "host=" part
  · rw [if_pos h1]
    have hL : partOcc ("host=" ++ th) = some (.host th) := by
      rw [partOcc, if_pos (strStarts_append_self "host=" th)]
      have h5 : dropPfx ("host=" ++ th) 5 = th := dropPfx_append "host=" th
      rw [h5]
    have hR : partOcc part = some (.host (dropPfx part 5)) := by
      rw [partOcc, if_pos h1]
    rw [hL, hR]
    rfl
  · rw [if_neg h1]
    by_cases h2 : strStarts "port=" part
    · rw [if_pos h2]
      have hL : partOcc ("port=" ++ pyStr tp) = some (.port (pyStr tp)) := by
        rw [partOcc, if_neg (by rw [strStarts_hostKey_portKey]; simp),
          if_pos (strStarts_append_self "port=" (pyStr tp))]
        have h5 : dropPfx ("port=" ++ pyStr tp) 5 = pyStr tp :=
          dropPfx_append "port=" (pyStr tp)
        rw [h5]
      have hR : partOcc part = some (.port (dropPfx part 5)) := by
        rw [partOcc, if_neg h1, if_pos h2]
      rw [hL, hR]
      rfl
    · rw [if_neg h2]
      have hR : partOcc part = none := by
        rw [partOcc, if_neg h1, if_neg h2]
      rw [hR]
      rfl

/-- The gate survives the rewrite: a rewritten dbname value still
contains `host=`, provided its gated port fields were all valid. -/
theorem rewriteDbname_gate (v th : String) (tp : Int) (hw : noWsStr th = true)
    (hg : containsSubstr v "host=" = true)
    (hp : (portVals (dbOccs v)).all validInt = true) :
    containsSubstr (rewriteDbname v th tp) "host=" = true := by
  obtain ⟨part0, hmem0, hsub0⟩ :=
    isSubstr_splitWs "host=".data (by decide) (by decide) v.data.length v.data
      (Nat.le_refl _) hg
  have hmemS : String.mk part0 ∈ pySplit v := List.mem_map_of_mem String.mk hmem0
  have hrw : isSubstr "host=".data (replField th tp ⟨part0⟩).data = true := by
    rw [replField]
    by_cases h1 : strStarts "host=" ⟨part0⟩
    · rw [if_pos h1]
      rw [show ("host=" ++ th).data = "host=".data ++ th.data from rfl, isSubstr_iff]
      exact ⟨[], th.data, by simp⟩
    · by_cases h2 : strStarts "port=" (⟨part0⟩ : String)
      · exfalso
        rw [strStarts, lpre_iff] at h2
        obtain ⟨t, ht⟩ := h2
        have hocc : partOcc ⟨part0⟩ = some (.port (dropPfx ⟨part0⟩ 5)) := by
          rw [partOcc, if_neg h1, if_pos (by rw [strStarts, lpre_iff]; exact ⟨t, ht⟩)]
        have hvmem : dropPfx ⟨part0⟩ 5 ∈ portVals (dbOccs v) := by
          rw [dbOccs, if_pos hg, portVals]
          rw [List.mem_filterMap]
          refine ⟨.port (dropPfx ⟨part0⟩ 5), ?_, rfl⟩
          rw [List.mem_filterMap]
          exact ⟨⟨part0⟩, hmemS, hocc⟩
        have hvalid : validInt (dropPfx (⟨part0⟩ : String) 5) = true := by
          rw [List.all_eq_true] at hp
          exact hp _ hvmem
        have hdp : dropPfx (⟨part0⟩ : String) 5 = ⟨t⟩ := by
          have hmk : (⟨part0⟩ : String) = "port=" ++ ⟨t⟩ := congrArg String.mk ht
          rw [hmk]
          exact dropPfx_append "port=" ⟨t⟩
        have hh : 'h' ∈ part0 := isSubstr_mem hsub0 'h' (by decide)
        have ht2 : part0 = "port=".data ++ t := ht
        rw [ht2, List.mem_append] at hh
        rcases hh with hh | hh
        · exact absurd hh (by decide)
        · rw [hdp] at hvalid
          rcases validInt_chars ⟨t⟩ hvalid 'h' hh with h3 | h3 | h3 | h3 | h3 <;>
            exact absurd h3 (by decide)
      · rw [if_neg h1, if_neg h2]
        exact hsub0
  exact isSubstr_joinSpace ((pySplit v).map (replField th tp))
    (replField th tp ⟨part0⟩) "host=".data
    (List.mem_map_of_mem (replField th tp) hmemS) hrw

/-- Rewriting a gated dbname value maps its occurrence list through the
substitution, element by element. -/
theorem dbOccs_rewrite (v th : String) (tp : Int) (hw : noWsStr th = true)
    (hg : containsSubstr v "host=" = true)
    (hp : (portVals (dbOccs v)).all validInt = true) :
    dbOccs (rewriteDbname v th tp) = (dbOccs v).map (substOcc th tp) := by
  rw [dbOccs, if_pos (rewriteDbname_gate v th tp hw hg hp)]
  rw [pySplit_rewriteDbname v th tp hw]
  rw [dbOccs, if_pos hg]
  generalize pySplit v = parts
  induction parts with
  | nil => rfl
  | cons part parts ih =>
    rw [List.map_cons, List.filterMap_cons, List.filterMap_cons, partOcc_replField]
    cases hpp : partOcc part
    · simp only [hpp, Option.map_none']
      exact ih
    · simp only [hpp, Option.map_some', List.map_cons]
      rw [ih]

/-- Master transform: the occurrence list of the rewriting walk's output
(with any token list appended) is the input's occurrence list mapped
through the substitution, followed by the appended tokens' occurrences
adjusted for the walk's tail shape. -/
theorem connOccs_buildCore (args : List String) (th : String) (tp : Int) :
    noWsStr th = true → (portVals (connOccs args)).all validInt = true →
    ∀ tail : List String,
      connOccs (buildCore args th tp ++ tail) =
        (connOccs args).map (substOcc th tp) ++
          modeOccs th tp (coreTailMode args) tail := by
  induction args, th, tp using buildCore.induct with
  | case1 th tp =>
    intro _ _ tail
    rfl
  | case2 arg th tp h v rest2 ih =>
    intro hw hall tail
    have hocc := connOccs_hFlag arg v rest2 h
    rw [hocc, portVals_cons_host] at hall
    rw [buildCore_cons, if_pos h]
    show connOccs ("-h" :: th :: (buildCore rest2 th tp ++ tail)) = _
    rw [connOccs_hFlag "-h" th _ (Or.inl rfl)]
    rw [ih hw hall tail, hocc, coreTailMode_cons, if_pos h]
    rw [List.map_cons]
    rfl
  | case3 arg th tp h =>
    intro hw hall tail
    rw [buildCore_cons, if_pos h]
    show connOccs ("-h" :: th :: tail) =
      (connOccs [arg]).map (substOcc th tp) ++
        modeOccs th tp (coreTailMode [arg]) tail
    rw [connOccs_hFlag "-h" th tail (Or.inl rfl), connOccs_hFlag_nil arg h,
      coreTailMode_cons, if_pos h]
    rfl
  | case4 arg rest th tp h1 h2 ih =>
    intro hw hall tail
    have hocc := connOccs_hEq arg rest h1 h2
    rw [hocc, portVals_cons_host] at hall
    rw [buildCore_cons, if_neg h1, if_pos h2]
    show connOccs (("--host=" ++ th) :: (buildCore rest th tp ++ tail)) = _
    have hne : ¬("--host=" ++ th = "-h" ∨ "--host=" ++ th = "--host") := by
      push_neg
      exact ⟨append_ne_short "--host=" th "-h" (by decide),
        append_ne_short "--host=" th "--host" (by decide)⟩
    rw [connOccs_hEq _ _ hne (strStarts_append_self "--host=" th)]
    have h7 : dropPfx ("--host=" ++ th) 7 = th := dropPfx_append "--host=" th
    rw [h7, ih hw hall tail, hocc, coreTailMode_cons, if_neg h1, if_pos h2]
    rw [List.map_cons]
    rfl
  | case5 arg th tp h1 h2 h3 v rest2 ih =>
    intro hw hall tail
    have hocc := connOccs_pFlag arg v rest2 h1 h2 h3
    rw [hocc, portVals_cons_port, List.all_cons, Bool.and_eq_true] at hall
    rw [buildCore_cons, if_neg h1, if_neg h2, if_pos h3]
    show connOccs ("-p" :: pyStr tp :: (buildCore rest2 th tp ++ tail)) = _
    rw [connOccs_pFlag "-p" (pyStr tp) _ (by decide) (by decide) (Or.inl rfl)]
    rw [ih hw hall.2 tail, hocc, coreTailMode_cons, if_neg h1, if_neg h2, if_pos h3]
    rw [List.map_cons]
    rfl
  | case6 arg th tp h1 h2 h3 =>
    intro hw hall tail
    rw [buildCore_cons, if_neg h1, if_neg h2, if_pos h3]
    show connOccs ("-p" :: pyStr tp :: tail) =
      (connOccs [arg]).map (substOcc th tp) ++
        modeOccs th tp (coreTailMode [arg]) tail
    rw [connOccs_pFlag "-p" (pyStr tp) tail (by decide) (by decide) (Or.inl rfl),
      connOccs_pFlag_nil arg h1 h2 h3, coreTailMode_cons, if_neg h1, if_neg h2,
      if_pos h3]
    rfl
  | case7 arg rest th tp h1 h2 h3 h4 ih =>
    intro hw hall tail
    have hocc := connOccs_pEq arg rest h1 h2 h3 h4
    rw [hocc, portVals_cons_port, List.all_cons, Bool.and_eq_true] at hall
    rw [buildCore_cons, if_neg h1, if_neg h2, if_neg h3, if_pos h4]
    show connOccs (("--port=" ++ pyStr tp) :: (buildCore rest th tp ++ tail)) = _
    have hne1 : ¬("--port=" ++ pyStr tp = "-h" ∨ "--port=" ++ pyStr tp = "--host") := by
      push_neg
      exact ⟨append_ne_short "--port=" (pyStr tp) "-h" (by decide),
        append_ne_short "--port=" (pyStr tp) "--host" (by decide)⟩
    have hne2 : ¬strStarts "--host=" ("--port=" ++ pyStr tp) = true := by
      rw [strStarts_hostEq_portEq]
      simp
    have hne3 : ¬("--port=" ++ pyStr tp = "-p" ∨ "--port=" ++ pyStr tp = "--port") := by
      push_neg
      exact ⟨append_ne_short "--port=" (pyStr tp) "-p" (by decide),
        append_ne_short "--port=" (pyStr tp) "--port" (by decide)⟩
    rw [connOccs_pEq _ _ hne1 hne2 hne3 (strStarts_append_self "--port=" (pyStr tp))]
    have h7 : dropPfx ("--port=" ++ pyStr tp) 7 = pyStr tp :=
      dropPfx_append "--port=" (pyStr tp)
    rw [h7, ih hw hall.2 tail, hocc, coreTailMode_cons, if_neg h1, if_neg h2,
      if_neg h3, if_pos h4]
    rw [List.map_cons]
    rfl
  | case8 arg th tp h1 h2 h3 h4 h5 v rest2 hg ih =>
    intro hw hall tail
    have hocc := connOccs_dFlag arg v rest2 h1 h2 h3 h4 h5
    rw [hocc, portVals_append, List.all_append, Bool.and_eq_true] at hall
    rw [buildCore_cons, if_neg h1, if_neg h2, if_neg h3, if_neg h4, if_pos h5]
    show connOccs ((if containsSubstr v "host=" then
        "-d" :: rewriteDbname v th tp :: buildCore rest2 th tp
      else "-d" :: v :: buildCore rest2 th tp) ++ tail) = _
    rw [if_pos hg]
    show connOccs ("-d" :: rewriteDbname v th tp :: (buildCore rest2 th tp ++ tail)) = _
    rw [connOccs_dFlag "-d" _ _ (by decide) (by decide) (by decide) (by decide)
      (Or.inl rfl)]
    rw [dbOccs_rewrite v th tp hw hg hall.1]
    rw [ih hw hall.2 tail, hocc, coreTailMode_cons, if_neg h1, if_neg h2, if_neg h3,
      if_neg h4, if_pos h5]
    show (dbOccs v).map (substOcc th tp) ++
        ((connOccs rest2).map (substOcc th tp) ++
          modeOccs th tp (coreTailMode rest2) tail) =
      (dbOccs v ++ connOccs rest2).map (substOcc th tp) ++
        modeOccs th tp (coreTailMode rest2) tail
    rw [List.map_append, List.append_assoc]
  | case9 arg th tp h1 h2 h3 h4 h5 v rest2 hg ih =>
    intro hw hall tail
    have hdb : dbOccs v = [] := by
      rw [dbOccs, if_neg hg]
    have hocc := connOccs_dFlag arg v rest2 h1 h2 h3 h4 h5
    rw [hocc, hdb, List.nil_append] at hall
    rw [buildCore_cons, if_neg h1, if_neg h2, if_neg h3, if_neg h4, if_pos h5]
    show connOccs ((if containsSubstr v "host=" then
        "-d" :: rewriteDbname v th tp :: buildCore rest2 th tp
      else "-d" :: v :: buildCore rest2 th tp) ++ tail) = _
    rw [if_neg hg]
    show connOccs ("-d" :: v :: (buildCore rest2 th tp ++ tail)) = _
    rw [connOccs_dFlag "-d" v _ (by decide) (by decide) (by decide) (by decide)
      (Or.inl rfl), hdb, List.nil_append]
    rw [ih hw hall tail, hocc, hdb, List.nil_append, coreTailMode_cons, if_neg h1,
      if_neg h2, if_neg h3, if_neg h4, if_pos h5]
  | case10 arg th tp h1 h2 h3 h4 h5 ih =>
    intro hw hall tail
    rw [buildCore_cons, if_neg h1, if_neg h2, if_neg h3, if_neg h4, if_pos h5]
    show connOccs (arg :: tail) =
      (connOccs [arg]).map (substOcc th tp) ++
        modeOccs th tp (coreTailMode [arg]) tail
    rw [connOccs_dFlag_nil arg h1 h2 h3 h4 h5, coreTailMode_cons, if_neg h1,
      if_neg h2, if_neg h3, if_neg h4, if_pos h5]
    cases tail with
    | nil =>
      rw [show connOccs [arg] = [] from connOccs_dFlag_nil arg h1 h2 h3 h4 h5]
      rfl
    | cons v2 rest2 =>
      rw [connOccs_dFlag arg v2 rest2 h1 h2 h3 h4 h5]
      rfl
  | case11 arg rest th tp h1 h2 h3 h4 h5 h6 ih =>
    intro hw hall tail
    have hocc := connOccs_dEq arg rest h1 h2 h3 h4 h5 h6
    rw [hocc, portVals_append, List.all_append, Bool.and_eq_true] at hall
    rw [buildCore_cons, if_neg h1, if_neg h2, if_neg h3, if_neg h4, if_neg h5,
      if_pos h6]
    by_cases hg : containsSubstr (dropPfx arg 9) "host=" = true
    · rw [if_pos hg]
      show connOccs (("--dbname=" ++ rewriteDbname (dropPfx arg 9) th tp) ::
        (buildCore rest th tp ++ tail)) = _
      set rwv := rewriteDbname (dropPfx arg 9) th tp with hrwv
      have hne1 : ¬("--dbname=" ++ rwv = "-h" ∨ "--dbname=" ++ rwv = "--host") := by
        push_neg
        exact ⟨append_ne_short "--dbname=" rwv "-h" (by decide),
          append_ne_short "--dbname=" rwv "--host" (by decide)⟩
      have hne2 : ¬strStarts "--host=" ("--dbname=" ++ rwv) = true := by
        rw [strStarts_hostEq_dbEq]
        simp
      have hne3 : ¬("--dbname=" ++ rwv = "-p" ∨ "--dbname=" ++ rwv = "--port") := by
        push_neg
        exact ⟨append_ne_short "--dbname=" rwv "-p" (by decide),
          append_ne_short "--dbname=" rwv "--port" (by decide)⟩
      have hne4 : ¬strStarts "--port=" ("--dbname=" ++ rwv) = true := by
        rw [strStarts_portEq_dbEq]
        simp
      have hne5 : ¬("--dbname=" ++ rwv = "-d" ∨ "--dbname=" ++ rwv = "--dbname") := by
        push_neg
        exact ⟨append_ne_short "--dbname=" rwv "-d" (by decide),
          append_ne_short "--dbname=" rwv "--dbname" (by decide)⟩
      rw [connOccs_dEq _ _ hne1 hne2 hne3 hne4 hne5
        (strStarts_append_self "--dbname=" rwv)]
      have h9 : dropPfx ("--dbname=" ++ rwv) 9 = rwv := dropPfx_append "--dbname=" rwv
      rw [h9]
      rw [show dbOccs rwv = (dbOccs (dropPfx arg 9)).map (substOcc th tp) from by
        rw [hrwv]
        exact dbOccs_rewrite _ th tp hw hg hall.1]
      rw [ih hw hall.2 tail, hocc, coreTailMode_cons, if_neg h1, if_neg h2,
        if_neg h3, if_neg h4, if_neg h5, if_pos h6]
      rw [List.map_append, List.append_assoc]
    · rw [if_neg hg]
      have hdb : dbOccs (dropPfx arg 9) = [] := by
        rw [dbOccs, if_neg hg]
      show connOccs (arg :: (buildCore rest th tp ++ tail)) = _
      rw [connOccs_dEq arg _ h1 h2 h3 h4 h5 h6, hdb, List.nil_append]
      rw [ih hw hall.2 tail, hocc, hdb, List.nil_append, coreTailMode_cons,
        if_neg h1, if_neg h2, if_neg h3, if_neg h4, if_neg h5, if_pos h6]
  | case12 arg rest th tp h1 h2 h3 h4 h5 h6 ih =>
    intro hw hall tail
    have hocc := connOccs_plain arg rest h1 h2 h3 h4 h5 h6
    rw [hocc] at hall
    rw [buildCore_cons, if_neg h1, if_neg h2, if_neg h3, if_neg h4, if_neg h5,
      if_neg h6]
    show connOccs (arg :: (buildCore rest th tp ++ tail)) = _
    rw [connOccs_plain arg _ h1 h2 h3 h4 h5 h6]
    rw [ih hw hall tail, hocc, coreTailMode_cons, if_neg h1, if_neg h2, if_neg h3,
      if_neg h4, if_neg h5, if_neg h6]

/-! Assembly helpers for the round-trip theorem. -/
theorem benign_noWs (th : String) (hb : benignHost th = true) : noWsStr th = true := by
  rw [benignHost] at hb
  simp only [Bool.and_eq_true] at hb
  exact hb.1.1

theorem mem_hostVals {l : List Occ} {v : String} (h : v ∈ hostVals l) :
    Occ.host v ∈ l := by
  rw [hostVals, List.mem_filterMap] at h
  obtain ⟨o, ho, hov⟩ := h
  cases o with
  | host w =>
    simp only [Option.some.injEq] at hov
    subst hov
    exact ho
  | port w =>
    simp at hov

theorem mem_portVals {l : List Occ} {v : String} (h : v ∈ portVals l) :
    Occ.port v ∈ l := by
  rw [portVals, List.mem_filterMap] at h
  obtain ⟨o, ho, hov⟩ := h
  cases o with
  | host w =>
    simp at hov
  | port w =>
    simp only [Option.some.injEq] at hov
    subst hov
    exact ho

theorem hostVals_map_subst (th : String) (tp : Int) (l : List Occ) :
    hostVals (l.map (substOcc th tp)) = (hostVals l).map fun _ => th := by
  induction l with
  | nil => rfl
  | cons o rest ih =>
    cases o with
    | host v => simp [substOcc, ih]
    | port v => simp [substOcc, ih]

theorem portVals_map_subst (th : String) (tp : Int) (l : List Occ) :
    portVals (l.map (substOcc th tp)) = (portVals l).map fun _ => pyStr tp := by
  induction l with
  | nil => rfl
  | cons o rest ih =>
    cases o with
    | host v => simp [substOcc, ih]
    | port v => simp [substOcc, ih]

theorem lastD_all (l : List α) (a : α) (h : ∀ v ∈ l, v = a) : lastD l a = a := by
  induction l generalizing a with
  | nil => rfl
  | cons x xs ih =>
    rw [lastD_cons]
    have hx : x = a := h x (by simp)
    subst hx
    exact ih x fun v hv => h v (by simp [hv])

theorem lastD_of_all (l : List α) (d a : α) (hall : ∀ v ∈ l, v = a)
    (hnil : l = [] → d = a) : lastD l d = a := by
  match l with
  | [] => exact hnil rfl
  | x :: xs =>
    rw [lastD_cons]
    have hx : x = a := hall x (by simp)
    subst hx
    exact lastD_all xs x fun v hv => hall v (by simp [hv])

theorem filterMap_pyInt_const (tp : Int) (L : List String)
    (h : ∀ v ∈ L, v = pyStr tp) :
    L.filterMap pyInt = L.map fun _ => tp := by
  induction L with
  | nil => rfl
  | cons x xs ih =>
    have hx : x = pyStr tp := h x (by simp)
    subst hx
    rw [List.filterMap_cons, pyInt_pyStr]
    show tp :: List.filterMap pyInt xs = tp :: (xs.map fun _ => tp)
    rw [ih fun v hv => h v (by simp [hv])]

theorem pyStr_ne_dashAlpha (tp : Int) (q : String) (c0 : Char) (rest : List Char)
    (hq : q.data = '-' :: c0 :: rest) (hc : c0.isDigit = false) : pyStr tp ≠ q := by
  intro h
  rcases pyStr_data_shape tp with ⟨c, cs, hd, hdig⟩ | ⟨c, cs, hd, hdig⟩
  · rw [h, hq] at hd
    injection hd with h1 h2
    rw [← h1] at hdig
    exact absurd hdig (by decide)
  · rw [h, hq] at hd
    injection hd with h1 h2
    injection h2 with h3 h4
    rw [← h3] at hdig
    rw [hc] at hdig
    exact Bool.noConfusion hdig

/-- A benign host token scanned on its own contributes no occurrence. -/
theorem connOccs_benign_cons (th : String) (hb : benignHost th = true)
    (rest : List String) : connOccs (th :: rest) = connOccs rest := by
  rw [benignHost] at hb
  simp only [Bool.and_eq_true, Bool.not_eq_true', Bool.or_eq_false_iff,
    decide_eq_false_iff_not] at hb
  obtain ⟨⟨hw, ⟨⟨⟨⟨n1, n2⟩, n3⟩, n4⟩, n5⟩, n6⟩, ⟨p1, p2⟩, p3⟩ := hb
  apply connOccs_plain th rest
  · rintro (h | h)
    · exact n1 h
    · exact n2 h
  · rw [p1]
    simp
  · rintro (h | h)
    · exact n3 h
    · exact n4 h
  · rw [p2]
    simp
  · rintro (h | h)
    · exact n5 h
    · exact n6 h
  · rw [p3]
    simp

/-- A printed port scanned on its own contributes no occurrence. -/
theorem connOccs_pyStr_cons (tp : Int) (rest : List String) :
    connOccs (pyStr tp :: rest) = connOccs rest := by
  apply connOccs_plain (pyStr tp) rest
  · rintro (h | h)
    · exact pyStr_ne_dashAlpha tp "-h" 'h' [] rfl (by decide) h
    · exact pyStr_ne_dashAlpha tp "--host" '-' "host".data rfl (by decide) h
  · have hp : strStarts "--host=" (pyStr tp) = false := pyStr_no_ddash tp "host=".data
    rw [hp]
    simp
  · rintro (h | h)
    · exact pyStr_ne_dashAlpha tp "-p" 'p' [] rfl (by decide) h
    · exact pyStr_ne_dashAlpha tp "--port" '-' "port".data rfl (by decide) h
  · have hp : strStarts "--port=" (pyStr tp) = false := pyStr_no_ddash tp "port=".data
    rw [hp]
    simp
  · rintro (h | h)
    · exact pyStr_ne_dashAlpha tp "-d" 'd' [] rfl (by decide) h
    · exact pyStr_ne_dashAlpha tp "--dbname" '-' "dbname".data rfl (by decide) h
  · have hp : strStarts "--dbname=" (pyStr tp) = false := pyStr_no_ddash tp "dbname=".data
    rw [hp]
    simp

/-- Every occurrence of the appended tail (adjusted for the walk's tail
shape) is the substituted host or the printed port. -/
theorem modeOccs_mem (th : String) (tp : Int) (hb : benignHost th = true)
    (mode : CoreTail) (tl : List String)
    (htail : tl = [] ∨ tl = ["-h", th] ∨ tl = ["-p", pyStr tp] ∨
      tl = ["-h", th, "-p", pyStr tp]) :
    ∀ o ∈ modeOccs th tp mode tl, o = .host th ∨ o = .port (pyStr tp) := by
  have e0 : connOccs ([] : List String) = [] := rfl
  have eh : connOccs ["-h", th] = [.host th] := by
    rw [connOccs_hFlag "-h" th [] (Or.inl rfl), e0]
  have ep : connOccs ["-p", pyStr tp] = [.port (pyStr tp)] := by
    rw [connOccs_pFlag "-p" (pyStr tp) [] (by decide) (by decide) (Or.inl rfl), e0]
  have ehp : connOccs ["-h", th, "-p", pyStr tp] = [.host th, .port (pyStr tp)] := by
    rw [connOccs_hFlag "-h" th _ (Or.inl rfl),
      connOccs_pFlag "-p" (pyStr tp) [] (by decide) (by decide) (Or.inl rfl), e0]
  have hdbh : dbOccs "-h" = [] := by
    rw [dbOccs, if_neg (by decide)]
  have s0 : swallowTail ([] : List String) = [] := rfl
  have sh : swallowTail ["-h", th] = [] := by
    show dbOccs "-h" ++ connOccs [th] = []
    rw [hdbh, connOccs_benign_cons th hb, List.nil_append, e0]
  have sp : swallowTail ["-p", pyStr tp] = [] := by
    show dbOccs "-p" ++ connOccs [pyStr tp] = []
    rw [show dbOccs "-p" = [] from by rw [dbOccs, if_neg (by decide)],
      connOccs_pyStr_cons tp [], List.nil_append, e0]
  have shp : swallowTail ["-h", th, "-p", pyStr tp] = [.port (pyStr tp)] := by
    show dbOccs "-h" ++ connOccs [th, "-p", pyStr tp] = _
    rw [hdbh, connOccs_benign_cons th hb, ep, List.nil_append]
  intro o ho
  cases mode <;> rcases htail with h | h | h | h <;> subst h <;>
    simp only [modeOccs, e0, eh, ep, ehp, s0, sh, sp, shp, List.mem_cons,
      List.mem_singleton, List.not_mem_nil, or_false, false_or] at ho <;>
    tauto

/-- C7 as stated fails on the code: with an effective host that itself
contains a `port=` field (`-h "x port=999"` after a gated dbname), the
rewrite pastes the host into the dbname connection string, where the
re-parse splits it on whitespace and reads the smuggled `port=999`,
changing the effective port from 7 to 999. -/
theorem c7_counterexample : ¬ C7OrigProp := by
  intro hAll
  obtain ⟨st2, rem2, hok, hhost, hport⟩ :=
    hAll ["-p", "7", "-d", "host=a", "-h", "x port=999"] "localhost" 5432
      ⟨"x port=999", 7, true, true⟩
      ["-p", "7", "-d", "host=a", "-h", "x port=999"] (by rfl)
  have hok2 : parse_connection_args
      (build_tunneled_args ["-p", "7", "-d", "host=a", "-h", "x port=999"]
        "x port=999" 7 "x port=999" 7 true true)
      ⟨"localhost", 5432, false, false⟩ = .ok (st2, rem2) := hok
  have hcomp : parse_connection_args
      (build_tunneled_args ["-p", "7", "-d", "host=a", "-h", "x port=999"]
        "x port=999" 7 "x port=999" 7 true true)
      ⟨"localhost", 5432, false, false⟩ =
      .ok (⟨"x port=999", 999, true, true⟩,
        ["-p", "7", "-d", "host=x port=999", "-h", "x port=999"]) := by rfl
  rw [hcomp] at hok2
  simp only [Except.ok.injEq, Prod.mk.injEq] at hok2
  obtain ⟨hst2, -⟩ := hok2
  rw [← hst2] at hport
  exact absurd hport (by decide)

/-- Claim C7, amended with the side condition forced by the
counterexample: the already-effective host must be a benign token
(whitespace-free and not spelled like a scanned flag or flag-prefix).
Under that condition, rewriting with replacement host/port equal to the
effective host/port yields a token sequence that parses without error to
the same effective host and port. -/
theorem c7_roundtrip (args : List String) (dh : String) (dp : Int)
    (st : ParseState) (rem : List String)
    (hok : parse_connection_args args ⟨dh, dp, false, false⟩ = .ok (st, rem))
    (hb : benignHost st.host = true) :
    ∃ st2 rem2,
      parse_connection_args
        (build_tunneled_args args st.host st.port st.host st.port
          st.hasHost st.hasPort)
        ⟨dh, dp, false, false⟩ = .ok (st2, rem2) ∧
        st2.host = st.host ∧ st2.port = st.port := by
  have hall : (portVals (connOccs args)).all validInt = true := by
    by_contra hno
    rw [Bool.not_eq_true] at hno
    obtain ⟨s, hs, -⟩ := find?_of_all_false hno
    rw [(parse_spec args ⟨dh, dp, false, false⟩).1 s hs] at hok
    cases hok
  have hst1 : st = specState args ⟨dh, dp, false, false⟩ := by
    have h2 := (parse_spec args ⟨dh, dp, false, false⟩).2 hall
    rw [h2] at hok
    simp only [Except.ok.injEq, Prod.mk.injEq] at hok
    exact hok.1.symm
  subst hst1
  rw [show build_tunneled_args args
        (specState args ⟨dh, dp, false, false⟩).host
        (specState args ⟨dh, dp, false, false⟩).port
        (specState args ⟨dh, dp, false, false⟩).host
        (specState args ⟨dh, dp, false, false⟩).port
        (specState args ⟨dh, dp, false, false⟩).hasHost
        (specState args ⟨dh, dp, false, false⟩).hasPort =
      buildCore args (specState args ⟨dh, dp, false, false⟩).host
          (specState args ⟨dh, dp, false, false⟩).port ++
        ((if (specState args ⟨dh, dp, false, false⟩).hasHost then []
          else ["-h", (specState args ⟨dh, dp, false, false⟩).host]) ++
         (if (specState args ⟨dh, dp, false, false⟩).hasPort then []
          else ["-p", pyStr (specState args ⟨dh, dp, false, false⟩).port]))
      from by rw [build_tunneled_args, List.append_assoc]]
  set TH := (specState args ⟨dh, dp, false, false⟩).host with hTH
  set TP := (specState args ⟨dh, dp, false, false⟩).port with hTP
  set tl := (if (specState args ⟨dh, dp, false, false⟩).hasHost then []
      else ["-h", TH]) ++
    (if (specState args ⟨dh, dp, false, false⟩).hasPort then []
      else ["-p", pyStr TP]) with htl
  have htail4 : tl = [] ∨ tl = ["-h", TH] ∨ tl = ["-p", pyStr TP] ∨
      tl = ["-h", TH, "-p", pyStr TP] := by
    rw [htl]
    cases (specState args ⟨dh, dp, false, false⟩).hasHost <;>
      cases (specState args ⟨dh, dp, false, false⟩).hasPort <;> simp
  have hOcc := connOccs_buildCore args TH TP (benign_noWs TH hb) hall tl
  have hall2 : (portVals (connOccs (buildCore args TH TP ++ tl))).all validInt
      = true := by
    rw [hOcc, List.all_eq_true]
    intro v hv
    rw [portVals_append, List.mem_append] at hv
    rcases hv with hv | hv
    · rw [portVals_map_subst, List.mem_map] at hv
      obtain ⟨w, -, hveq⟩ := hv
      rw [← hveq]
      exact validInt_pyStr TP
    · have hmem := mem_portVals hv
      rcases modeOccs_mem TH TP hb (coreTailMode args) tl htail4 _ hmem with h | h
      · exact Occ.noConfusion h
      · simp only [Occ.port.injEq] at h
        rw [h]
        exact validInt_pyStr TP
  have hpx := (parse_spec (buildCore args TH TP ++ tl) ⟨dh, dp, false, false⟩).2 hall2
  refine ⟨_, _, hpx, ?_, ?_⟩
  · show lastD (hostVals (connOccs (buildCore args TH TP ++ tl))) dh = TH
    apply lastD_of_all
    · intro v hv
      rw [hOcc, hostVals_append, List.mem_append] at hv
      rcases hv with hv | hv
      · rw [hostVals_map_subst, List.mem_map] at hv
        obtain ⟨w, -, hveq⟩ := hv
        exact hveq.symm
      · have hmem := mem_hostVals hv
        rcases modeOccs_mem TH TP hb (coreTailMode args) tl htail4 _ hmem with h | h
        · simp only [Occ.host.injEq] at h
          exact h
        · exact Occ.noConfusion h
    · intro hnil
      rw [hOcc, hostVals_append, List.append_eq_nil] at hnil
      obtain ⟨hn1, -⟩ := hnil
      rw [hostVals_map_subst, List.map_eq_nil_iff] at hn1
      rw [hTH]
      show dh = lastD (hostVals (connOccs args)) dh
      rw [hn1]
      rfl
  · show lastD (portInts (connOccs (buildCore args TH TP ++ tl))) dp = TP
    have hpv : ∀ v ∈ portVals (connOccs (buildCore args TH TP ++ tl)),
        v = pyStr TP := by
      intro v hv
      rw [hOcc, portVals_append, List.mem_append] at hv
      rcases hv with hv | hv
      · rw [portVals_map_subst, List.mem_map] at hv
        obtain ⟨w, -, hveq⟩ := hv
        exact hveq.symm
      · have hmem := mem_portVals hv
        rcases modeOccs_mem TH TP hb (coreTailMode args) tl htail4 _ hmem with h | h
        · exact Occ.noConfusion h
        · simp only [Occ.port.injEq] at h
          exact h
    have hpi : portInts (connOccs (buildCore args TH TP ++ tl)) =
        (portVals (connOccs (buildCore args TH TP ++ tl))).map fun _ => TP := by
      rw [portInts]
      exact filterMap_pyInt_const TP _ hpv
    rw [hpi]
    apply lastD_of_all
    · intro v hv
      rw [List.mem_map] at hv
      obtain ⟨w, -, hveq⟩ := hv
      exact hveq.symm
    · intro hnil
      rw [List.map_eq_nil_iff] at hnil
      rw [hOcc, portVals_append, List.append_eq_nil] at hnil
      obtain ⟨hn1, -⟩ := hnil
      rw [portVals_map_subst, List.map_eq_nil_iff] at hn1
      rw [hTP]
      show dp = lastD (portInts (connOccs args)) dp
      rw [portInts, hn1]
      rfl

theorem c7_roundtrip_witness :
    ∃ st2 rem2,
      parse_connection_args
        (build_tunneled_args ["-h", "myhost", "-p", "7"] "myhost" 7 "myhost" 7
          true true)
        ⟨"localhost", 5432, false, false⟩ = .ok (st2, rem2) ∧
        st2.host = "myhost" ∧ st2.port = 7 :=
  c7_roundtrip ["-h", "myhost", "-p", "7"] "localhost" 5432
    ⟨"myhost", 7, true, true⟩ ["-h", "myhost", "-p", "7"] (by rfl) (by decide)

/-! ### Claim C8: process exit codes -/
theorem start_tunnel_fatal_code (m : TunnelManager) (env : TunnelEnv)
    (h : String) (p : Int) (a : Option String) (c : Int)
    (hf : start_tunnel m env h p a = .fatal c) : c = 1 := by
  unfold start_tunnel at hf
  cases hfind : find_tunnel_url m (some h) a with
  | none => rw [hfind] at hf; cases hf
  | some u =>
    rw [hfind] at hf
    obtain ⟨ssh, sok, bact, lp⟩ := env
    cases ssh <;> cases sok <;> cases bact <;> simp_all

/-- C8: exit-code policy of the orchestration.  A tunnel-setup failure
(missing `sshtunnel` capability, handshake raise, or bind reported not
active) exits with the fixed code 1 and the wrapped command is never
invoked; on normal completion the wrapped command's own exit code is
propagated unchanged; a missing wrapped executable exits 1; a user
interrupt exits with the fixed code 130; and on every path that reached
the wrapped invocation, `stop_tunnel` teardown runs in the `finally`
block. -/
theorem c8_exit_code_policy (m : TunnelManager) (env : TunnelEnv)
    (run : RunOutcome) (args : List String) (dh : String) (dp : Int)
    (dsn_alias : Option String) :
    (∀ st rem c, parse_connection_args args ⟨dh, dp, false, false⟩ = .ok (st, rem) →
      start_tunnel m env st.host st.port dsn_alias = .fatal c →
      (cliModel m env run args dh dp dsn_alias).exitCode = c ∧ c = 1 ∧
      (cliModel m env run args dh dp dsn_alias).ranWrapped = false ∧
      (cliModel m env run args dh dp dsn_alias).stopCalled = false) ∧
    (∀ st rem th tp c, parse_connection_args args ⟨dh, dp, false, false⟩ = .ok (st, rem) →
      start_tunnel m env st.host st.port dsn_alias = .opened th tp →
      run = .completed c →
      (cliModel m env run args dh dp dsn_alias).exitCode = c ∧
      (cliModel m env run args dh dp dsn_alias).ranWrapped = true ∧
      (cliModel m env run args dh dp dsn_alias).stopCalled = true) ∧
    (∀ st rem th tp, parse_connection_args args ⟨dh, dp, false, false⟩ = .ok (st, rem) →
      start_tunnel m env st.host st.port dsn_alias = .opened th tp →
      run = .notFound →
      (cliModel m env run args dh dp dsn_alias).exitCode = 1 ∧
      (cliModel m env run args dh dp dsn_alias).ranWrapped = false ∧
      (cliModel m env run args dh dp dsn_alias).stopCalled = true) ∧
    (∀ st rem th tp, parse_connection_args args ⟨dh, dp, false, false⟩ = .ok (st, rem) →
      start_tunnel m env st.host st.port dsn_alias = .opened th tp →
      run = .interrupted →
      (cliModel m env run args dh dp dsn_alias).exitCode = 130 ∧
      (cliModel m env run args dh dp dsn_alias).ranWrapped = true ∧
      (cliModel m env run args dh dp dsn_alias).stopCalled = true) := by
  refine ⟨?_, ?_, ?_, ?_⟩
  · intro st rem c hpar hst
    refine ⟨?_, start_tunnel_fatal_code m env st.host st.port dsn_alias c hst, ?_, ?_⟩ <;>
      simp [cliModel, hpar, hst]
  · intro st rem th tp c hpar hst hrun
    subst hrun
    refine ⟨?_, ?_, ?_⟩ <;> simp [cliModel, hpar, hst]
  · intro st rem th tp hpar hst hrun
    subst hrun
    refine ⟨?_, ?_, ?_⟩ <;> simp [cliModel, hpar, hst]
  · intro st rem th tp hpar hst hrun
    subst hrun
    refine ⟨?_, ?_, ?_⟩ <;> simp [cliModel, hpar, hst]

/-- Witness for C8 at four concrete invocations: a handshake that reports
not-active (Scenario E), a normal completion with exit code 7, a missing
`pg_dumpall` executable, and a user interrupt. -/
theorem c8_exit_code_policy_witness :
    ((cliModel ⟨some "ssh://u@jump", [], []⟩ ⟨true, true, false, 6500⟩
        (.completed 0) [] "localhost" 5432 none).exitCode = 1 ∧
      (cliModel ⟨some "ssh://u@jump", [], []⟩ ⟨true, true, false, 6500⟩
        (.completed 0) [] "localhost" 5432 none).ranWrapped = false) ∧
    (cliModel ⟨none, [], []⟩ ⟨true, true, true, 6500⟩ (.completed 7)
      [] "localhost" 5432 none).exitCode = 7 ∧
    (cliModel ⟨none, [], []⟩ ⟨true, true, true, 6500⟩ .notFound
      [] "localhost" 5432 none).exitCode = 1 ∧
    ((cliModel ⟨none, [], []⟩ ⟨true, true, true, 6500⟩ .interrupted
        [] "localhost" 5432 none).exitCode = 130 ∧
      (cliModel ⟨none, [], []⟩ ⟨true, true, true, 6500⟩ .interrupted
        [] "localhost" 5432 none).stopCalled = true) := by
  refine ⟨⟨?_, ?_⟩, ?_, ?_, ?_, ?_⟩
  · exact ((c8_exit_code_policy ⟨some "ssh://u@jump", [], []⟩ ⟨true, true, false, 6500⟩
      (.completed 0) [] "localhost" 5432 none).1 ⟨"localhost", 5432, false, false⟩ [] 1
      (by rfl) (by rfl)).1
  · exact ((c8_exit_code_policy ⟨some "ssh://u@jump", [], []⟩ ⟨true, true, false, 6500⟩
      (.completed 0) [] "localhost" 5432 none).1 ⟨"localhost", 5432, false, false⟩ [] 1
      (by rfl) (by rfl)).2.2.1
  · exact ((c8_exit_code_policy ⟨none, [], []⟩ ⟨true, true, true, 6500⟩
      (.completed 7) [] "localhost" 5432 none).2.1 ⟨"localhost", 5432, false, false⟩ []
      "localhost" 5432 7 (by rfl) (by rfl) (by rfl)).1
  · exact ((c8_exit_code_policy ⟨none, [], []⟩ ⟨true, true, true, 6500⟩
      .notFound [] "localhost" 5432 none).2.2.1 ⟨"localhost", 5432, false, false⟩ []
      "localhost" 5432 (by rfl) (by rfl) (by rfl)).1
  · exact ((c8_exit_code_policy ⟨none, [], []⟩ ⟨true, true, true, 6500⟩
      .interrupted [] "localhost" 5432 none).2.2.2 ⟨"localhost", 5432, false, false⟩ []
      "localhost" 5432 (by rfl) (by rfl) (by rfl)).1
  · exact ((c8_exit_code_policy ⟨none, [], []⟩ ⟨true, true, true, 6500⟩
      .interrupted [] "localhost" 5432 none).2.2.2 ⟨"localhost", 5432, false, false⟩ []
      "localhost" 5432 (by rfl) (by rfl) (by rfl)).2.2

end PgDump



